import Mathlib

/-!
Shallow embedding of the drizzle-turso schema-diff core.

The embedding translates `src/definitions.ts` (schema model, `differences`
classification) and the SQL generation module (`createTableSQL`,
`recreateTableSql`, ...) into executable Lean definitions, and
`transformDefault` from `src/drizzle.ts`.

Modelling conventions, justified next to each definition:
* JavaScript `Map` objects (insertion ordered, keyed by the name of the stored
  entity) become lists of the entities; lookups search by name.  JavaScript
  `Set` objects become insertion-ordered duplicate-free lists (`addSet`).
* Object identity: inside one verified snapshot, every column, index and table
  is determined by its owner and its name, so structural equality on the
  (ownerName, value) pairs used below coincides with the object identity that
  the TypeScript `Set` membership relies on.
* Exceptions become `Except String`; thrown messages are kept verbatim.
* The random temp-table suffix drawn by `recreateTableSql` (nanoid) is made an
  explicit oracle argument `rand : Nat → String` (call number to suffix).
-/

namespace DrizzleTurso

/-! ### Ordered set / ordered map toolkit (JS `Set` and `Map` semantics) -/

/-- JS `Set.add`: append when not already present (insertion order kept). -/
def addSet {α : Type} [DecidableEq α] (s : List α) (a : α) : List α :=
  if a ∈ s then s else s ++ [a]

/-- JS `Set.delete`: drop the element, keeping the order of the rest. -/
def delSet {α : Type} [DecidableEq α] (s : List α) (a : α) : List α :=
  s.filter (fun x => x ≠ a)

/-- JS `Map.set`: update in place when the key exists (keeping its position),
else append. -/
def mapSet {α : Type} (m : List (String × α)) (k : String) (v : α) :
    List (String × α) :=
  if m.any (fun p => p.1 = k) then
    m.map (fun p => if p.1 = k then (k, v) else p)
  else m ++ [(k, v)]

/-- JS `Map.get` (as an option). -/
def mapGet? {α : Type} (m : List (String × α)) (k : String) : Option α :=
  (m.find? (fun p => p.1 = k)).map (fun p => p.2)

/-- JS `new Map(pairs)`: sequential `Map.set` over the pairs
(first occurrence fixes the position, last occurrence fixes the value). -/
def mkMap {α : Type} (l : List (String × α)) : List (String × α) :=
  l.foldl (fun m p => mapSet m p.1 p.2) []

/-- JS `[...new Set(list)]` for strings: dedupe keeping first occurrences. -/
def dedup (l : List String) : List String :=
  l.foldl addSet []

/-! ### encodeURIComponent (used by the canonical column-set encodings) -/

/-- Characters that `encodeURIComponent` leaves unescaped. -/
def isUriUnreserved (c : Char) : Bool :=
  (c ≥ 'A' && c ≤ 'Z') || (c ≥ 'a' && c ≤ 'z') || (c ≥ '0' && c ≤ '9') ||
  c = '-' || c = '_' || c = '.' || c = '!' || c = '~' || c = '*' ||
  c = Char.ofNat 39 || c = '(' || c = ')'

/-- Upper-case hexadecimal digit. -/
def hexDigit (n : Nat) : Char :=
  if n < 10 then Char.ofNat (48 + n) else Char.ofNat (55 + n)

/-- UTF-8 byte sequence of a code point. -/
def utf8Bytes (n : Nat) : List Nat :=
  if n < 128 then [n]
  else if n < 2048 then [192 + n / 64, 128 + n % 64]
  else if n < 65536 then [224 + n / 4096, 128 + (n / 64) % 64, 128 + n % 64]
  else [240 + n / 262144, 128 + (n / 4096) % 64, 128 + (n / 64) % 64, 128 + n % 64]

/-- Percent-escape of one character (per UTF-8 byte). -/
def pctEncodeChar (c : Char) : String :=
  (utf8Bytes c.toNat).foldl
    (fun acc b => ((acc.push ('%')).push (hexDigit (b / 16))).push (hexDigit (b % 16))) ("")

/-- JS `encodeURIComponent`. -/
def encodeURIComponent (s : String) : String :=
  s.data.foldl
    (fun acc c => if isUriUnreserved c then acc ++ String.singleton c else acc ++ pctEncodeChar c)
    ("")

/-! ### JS `Array.prototype.sort` on strings (code-unit lexicographic; all the
sorted strings below are ASCII after percent-encoding, where code-unit order
and code-point order agree). -/

/-- Code-point lexicographic comparison on character lists. -/
def charListLt : List Char → List Char → Bool
  | [], [] => false
  | [], _ :: _ => true
  | _ :: _, [] => false
  | c :: cs, d :: ds =>
    if c.toNat < d.toNat then true
    else if d.toNat < c.toNat then false
    else charListLt cs ds

def strLt (a b : String) : Bool := charListLt a.data b.data

def insertSorted (a : String) : List String → List String
  | [] => [a]
  | b :: bs => if strLt b a then b :: insertSorted a bs else a :: b :: bs

def sortStrings (l : List String) : List String :=
  l.foldr insertSorted []

/-! ### Data model (`src/definitions.ts`)

TypeScript owner back-references (`ownerTable`) are replaced by passing the
owner explicitly; constraints that the source states through object identity
are stated through names, which identify objects inside one snapshot. -/

inductive ColumnType where
  | integer | text | real | blob | nullType | empty
deriving DecidableEq

/-- Rendering of a `ColumnType`; `empty` is the unrecognized-type sentinel
(the empty string in the source union). -/
def ColumnType.render : ColumnType → String
  | .integer => "INTEGER"
  | .text => "TEXT"
  | .real => "REAL"
  | .blob => "BLOB"
  | .nullType => "NULL"
  | .empty => ""

inductive ForeignKeyAction where
  | noAction | restrictA | setNull | setDefault | cascade
deriving DecidableEq

def ForeignKeyAction.render : ForeignKeyAction → String
  | .noAction => "NO ACTION"
  | .restrictA => "RESTRICT"
  | .setNull => "SET NULL"
  | .setDefault => "SET DEFAULT"
  | .cascade => "CASCADE"

/-- `Column`: `defaultValue = none` models the TypeScript `null`. -/
structure Column where
  name : String
  type : ColumnType
  notNull : Bool
  defaultValue : Option String
  autoIncrement : Bool
deriving DecidableEq

/-- The `Column` constructor maps a literal `defaultValue` of `NULL` to null. -/
def Column.make (name : String) (type : ColumnType) (notNull : Bool)
    (defaultValue : Option String) (autoIncrement : Bool) : Column :=
  ⟨name, type, notNull, if defaultValue = some ("NULL") then none else defaultValue,
    autoIncrement⟩

/-- JS truthiness of a `string | null` value: `null` and the empty string are
falsy. -/
def strTruthy : Option String → Bool
  | none => false
  | some s => s ≠ ""

/-- `Index`: the source stores `Column` objects of the owning table; every use
reads only their names, so the embedding stores the names. -/
structure Index where
  name : String
  unique : Bool
  columns : List String
deriving DecidableEq

/-- `Unique`: ordered list of column names (the source stores the owning
table's `Column` objects, of which only the names are read). -/
structure Unique where
  columns : List String
deriving DecidableEq

/-- `ForeignKey`: the source stores a direct reference to the foreign `Table`;
only its name is ever read, so the embedding stores the name.  `localColumns`
keeps full columns because `removeForeignKeyFromColumnSQL` and
`addForeignKeyToColumnSQL` re-render the local column definition. -/
structure ForeignKey where
  foreignTableName : String
  foreignColumns : List String
  localColumns : List Column
  onUpdate : ForeignKeyAction
  onDelete : ForeignKeyAction
deriving DecidableEq

/-- `Table`.  `columns` and `indexes` model JS `Map`s keyed by the entity's
own name (insertion ordered); `primaryKey` is the dense form of the
primary-key array: the sparse builder form and the proof that verification
forces density are in the `SparsePK` section below. -/
structure Table where
  name : String
  columns : List Column
  primaryKey : List Column
  foreignKeys : List ForeignKey
  uniques : List Unique
  indexes : List Index
deriving DecidableEq

def Table.getColumn? (t : Table) (n : String) : Option Column :=
  t.columns.find? (fun c => c.name = n)

def Table.hasColumn (t : Table) (n : String) : Bool :=
  (t.getColumn? n).isSome

/-- `Definitions`: snapshot, a JS `Map` from table name to table. -/
structure Definitions where
  tables : List Table
deriving DecidableEq

def Definitions.getTable? (d : Definitions) (n : String) : Option Table :=
  d.tables.find? (fun t => t.name = n)

def Definitions.hasTable (d : Definitions) (n : String) : Bool :=
  (d.getTable? n).isSome

/-- `Definitions.allIndexes`, flattening each table's index map; the owner
table name is carried alongside (the source reaches it through
`index.ownerTable`). -/
def allIndexes (d : Definitions) : List (String × Index) :=
  (d.tables.map (fun t => t.indexes.map (fun i => (t.name, i)))).flatten

/-- `Definitions.allSingleColumnForeignKeys` with the owning table's name
carried alongside (the source reaches it through `fk.ownerTable`). -/
def allSingleColumnForeignKeys (d : Definitions) : List (String × ForeignKey) :=
  (d.tables.map (fun t =>
    (t.foreignKeys.filter (fun fk => fk.localColumns.length = 1)).map
      (fun fk => (t.name, fk)))).flatten

end DrizzleTurso

namespace DrizzleTurso

/-! ### Sparse primary-key builder (`setColumnAsPrimaryKey` / `verifyPrimaryKey`)

The TypeScript `primaryKey` field is a JS array that bracket-assignment can
leave sparse (holes read back as `undefined`).  A hole is modelled as `none`.
The main `Table` structure above keeps the dense form; the theorem for claim
C10 shows that `verifyPrimaryKey` accepts exactly the hole-free arrays, which
justifies the dense form everywhere after verification. -/

/-- `Table.setColumnAsPrimaryKey(column, i)`: slot `i - 1` is assigned;
`i = 0` is rejected; an occupied slot is rejected; assigning past the end
extends the array with holes, exactly like a JS sparse array. -/
def setColumnAsPrimaryKey (pk : List (Option Column)) (column : Column)
    (i : Nat) : Except String (List (Option Column)) :=
  if i = 0 then
    .error ("Index must be greater than 0 (pk_index = 0, means no primary key)")
  else
    let index := i - 1
    if index < pk.length then
      match pk.get? index with
      | some (some _) => .error ("Primary key already set")
      | _ => .ok (pk.set index (some column))
    else
      .ok (pk ++ List.replicate (index - pk.length) none ++ [some column])

/-- `Table.verifyPrimaryKey()` over the sparse array: iterating a sparse JS
array yields `undefined` at each hole, which the `!column` guard rejects;
a present column must resolve in the column map. -/
def verifyPrimaryKeySparse (columns : List Column) :
    List (Option Column) → Except String Unit
  | [] => .ok ()
  | none :: _ => .error ("Primary key column is undefined")
  | some c :: rest =>
    if columns.any (fun col => col.name = c.name) then
      verifyPrimaryKeySparse columns rest
    else .error ("Primary key column must belong to the table")

/-! ### Verification (`verify` methods; run by `differences` before diffing)

Checks the source phrases through object identity (`ownerTable === ...`)
become name-resolution checks against the owner or, for foreign columns,
against the foreign table looked up by name in the snapshot; the `mount`
guards are unrepresentable here (ownership is structural) and drop out. -/

def Table.verifyPrimaryKey (t : Table) : Except String Unit :=
  verifyPrimaryKeySparse t.columns (t.primaryKey.map some)

/-- `ForeignKey.verify()`.  The foreign table is resolved by name in the
snapshot (the source holds a direct object reference); the local columns must
be columns of the owning table. -/
def ForeignKey.verify (defs : Definitions) (owner : Table)
    (fk : ForeignKey) : Except String Unit :=
  if fk.foreignTableName = owner.name then
    .error ("Foreign table must not be the same as the local table")
  else if fk.foreignColumns.length = 0 then
    .error ("Foreign columns must not be empty")
  else if fk.localColumns.length = 0 then
    .error ("Local columns must not be empty")
  else if fk.foreignColumns.length ≠ fk.localColumns.length then
    .error ("Foreign key columns and local columns must have the same length")
  else
    match defs.getTable? fk.foreignTableName with
    | none => .error ("Foreign key column must belong to the foreign table")
    | some ft =>
      if fk.foreignColumns.all (fun n => ft.hasColumn n) then
        if fk.localColumns.all (fun c => owner.columns.contains c) then
          if fk.localColumns.Nodup then
            if fk.foreignColumns.Nodup then .ok ()
            else .error ("Foreign columns must be unique")
          else .error ("Local columns must be unique")
        else .error ("Local column must belong to the local table")
      else .error ("Foreign key column must belong to the foreign table")

/-- `Unique.verify()`: every column belongs to the owner, no duplicates. -/
def Unique.verify (t : Table) (u : Unique) : Except String Unit :=
  if u.columns.all (fun n => t.hasColumn n) then
    if u.columns.Nodup then .ok ()
    else .error ("Unique columns must be unique")
  else .error ("Unique column must belong to the table")

def verifyForeignKeys (defs : Definitions) (owner : Table) :
    List ForeignKey → Except String Unit
  | [] => .ok ()
  | fk :: rest =>
    match fk.verify defs owner with
    | .error e => .error e
    | .ok () => verifyForeignKeys defs owner rest

def verifyUniques (t : Table) : List Unique → Except String Unit
  | [] => .ok ()
  | u :: rest =>
    match u.verify t with
    | .error e => .error e
    | .ok () => verifyUniques t rest

/-- `Table.verify()`: primary key, then (structurally trivial) mount checks,
then foreign keys, then uniques. -/
def Table.verify (defs : Definitions) (t : Table) : Except String Unit :=
  match t.verifyPrimaryKey with
  | .error e => .error e
  | .ok () =>
    match verifyForeignKeys defs t t.foreignKeys with
    | .error e => .error e
    | .ok () => verifyUniques t t.uniques

/-- The per-table verification loop at the top of `differences`. -/
def verifyList (defs : Definitions) : List Table → Except String Unit
  | [] => .ok ()
  | t :: rest =>
    match t.verify defs with
    | .error e => .error e
    | .ok () => verifyList defs rest

end DrizzleTurso

namespace DrizzleTurso

/-! ### Statement generation (`sql-utils`) -/

/-- One column row of `createTableSQL`: name, type, NOT NULL, AUTO_INCREMENT,
DEFAULT, and (when `references` is set and a single-column foreign key sits
on this column) the inline REFERENCES clause. -/
def createColRow (table : Table) (references : Bool) (col : Column) : String :=
  let ty := col.type.render
  let cn := col.name
  let colSql := s!"    `{cn}` {ty}"
  let colSql := if col.notNull then colSql ++ (" NOT NULL") else colSql
  let colSql := if col.autoIncrement then colSql ++ (" AUTO_INCREMENT") else colSql
  let colSql :=
    if strTruthy col.defaultValue then
      colSql ++ (" DEFAULT ") ++ col.defaultValue.getD ("")
    else colSql
  let fkOpt := table.foreignKeys.find? (fun fk =>
    match fk.localColumns with
    | [c] => c.name = col.name
    | _ => false)
  match fkOpt with
  | some fk =>
    if references then
      let ftn := fk.foreignTableName
      let fcn := fk.foreignColumns.headD ("")
      let du := fk.onDelete.render
      let uu := fk.onUpdate.render
      colSql ++ s!" REFERENCES `{ftn}`(`{fcn}`) ON DELETE {du} ON UPDATE {uu}"
    else colSql
  | none => colSql

/-- The PRIMARY KEY row of `createTableSQL` (absent when no PK column). -/
def createPkRows (table : Table) : List String :=
  if table.primaryKey.length > 0 then
    let pks := String.intercalate (",") (table.primaryKey.map (fun c => s!"`{c.name}`"))
    [s!"    PRIMARY KEY ({pks})"]
  else []

/-- The FOREIGN KEY rows of `createTableSQL`: one per multi-column foreign
key (single-column ones are skipped by the `continue`). -/
def createFkRows (table : Table) : List String :=
  table.foreignKeys.filterMap (fun fk =>
    if fk.localColumns.length = 1 then none
    else
      let localStr := String.intercalate (",") (fk.localColumns.map (fun c => s!"`{c.name}`"))
      let foreignStr := String.intercalate (",") (fk.foreignColumns.map (fun c => s!"`{c}`"))
      let ftn := fk.foreignTableName
      let du := fk.onDelete.render
      let uu := fk.onUpdate.render
      some s!"FOREIGN KEY ({localStr}) REFERENCES `{ftn}`({foreignStr}) ON DELETE {du} ON UPDATE {uu}")

/-- The UNIQUE rows of `createTableSQL`, one per unique constraint. -/
def createUniqueRows (table : Table) : List String :=
  table.uniques.map (fun u =>
    let us := String.intercalate (",") (u.columns.map (fun c => s!"`{c}`"))
    s!"    UNIQUE ({us})")

/-- `createTableSQL(table, references, name)`.  Returns the one-element
statement list produced by the source (its `sqlIndexes` list is always
empty). -/
def createTableSQL (table : Table) (references : Bool)
    (name : Option String := none) : List String :=
  let tn := name.getD table.name
  [s!"CREATE TABLE `{tn}` (\n" ++
    String.intercalate (",\n")
      (table.columns.map (createColRow table references) ++ createPkRows table ++
        createFkRows table ++ createUniqueRows table) ++ ("\n)")]

def removeTableSQL (tableName : String) : List String :=
  [s!"DROP TABLE `{tableName}`"]

/-- `defineColumnSql(column, forceDefault)`: JS truthiness drives the default
handling (the empty string is falsy, the literal `NULL` string is truthy). -/
def defineColumnSql (column : Column) (forceDefault : Bool := false) : String :=
  let dv := column.defaultValue
  let dv :=
    if !(strTruthy dv || dv = some ("NULL")) && forceDefault then
      if column.type = .integer || column.type = .real then some ("0")
      else some ("\x22\x22")
    else dv
  let dv := if dv = some ("") then some ("\x22\x22") else dv
  let ty := column.type.render
  let cn := column.name
  let sql := s!"`{cn}` {ty}"
  let sql := if column.notNull then sql ++ (" NOT NULL") else sql
  let sql := if column.autoIncrement then sql ++ (" AUTO_INCREMENT") else sql
  if strTruthy dv then sql ++ (" DEFAULT ") ++ dv.getD ("") else sql

/-- `addColumnToTableSQL`: a NOT NULL column without a usable literal default
is added in two steps with a synthesized temporary default. -/
def addColumnToTableSQL (tableName : String) (column : Column) : List String :=
  if column.notNull &&
      (column.defaultValue = none || column.defaultValue = some ("NULL")) then
    let d1 := defineColumnSql column true
    let cn := column.name
    [s!"ALTER TABLE `{tableName}` ADD COLUMN {d1}",
     s!"ALTER TABLE `{tableName}` ALTER COLUMN `{cn}` TO {d1}"]
  else
    let d0 := defineColumnSql column
    [s!"ALTER TABLE `{tableName}` ADD COLUMN {d0}"]

/-- `addColumnSQL(column)`: the owner table name is explicit here (the source
reads it from `column.ownerTable`). -/
def addColumnSQL (tableName : String) (column : Column) : List String :=
  addColumnToTableSQL tableName column

def removeColumnSQL (tableName : String) (column : Column) : List String :=
  let cn := column.name
  [s!"ALTER TABLE `{tableName}` DROP COLUMN `{cn}`"]

def copyDataSQL (src : String) (dst : String) (columns : List String) : List String :=
  let cols := String.intercalate (",") (columns.map (fun c => s!"`{c}`"))
  [s!"INSERT INTO `{dst}` SELECT {cols} FROM `{src}`"]

def addIndexToTableSQL (tableName : String) (indexName : String)
    (columns : List String) : List String :=
  let cols := String.intercalate (",") (columns.map (fun c => s!"`{c}`"))
  [s!"CREATE INDEX IF NOT EXISTS `{indexName}` ON `{tableName}` ({cols})"]

def removeForeignKeyFromColumnSQL (tableName : String) (column : Column) :
    List String :=
  let d0 := defineColumnSql column
  let cn := column.name
  [s!"ALTER TABLE `{tableName}` ALTER COLUMN `{cn}` TO {d0}"]

def addForeignKeyToColumnSQL (tableName : String) (column : Column)
    (fk : ForeignKey) : List String :=
  let ftn := fk.foreignTableName
  let fcn := fk.foreignColumns.headD ("")
  let du := fk.onDelete.render
  let uu := fk.onUpdate.render
  let refClause := s!"REFERENCES `{ftn}`(`{fcn}`) ON DELETE {du} ON UPDATE {uu}"
  let d0 := defineColumnSql column
  let cn := column.name
  [s!"ALTER TABLE `{tableName}` ALTER COLUMN `{cn}` TO {d0} {refClause}"]

/-- The final statement of the recreate protocol: rename the shadow table to
the original name. -/
def renameShadowStmt (tmp fn : String) : String :=
  s!"ALTER TABLE `{tmp}` RENAME TO `{fn}`"

/-- The preparatory statements of `recreateTableSql` for every `to` column
missing from `from`: add the column to the current table with a temporary
default, and for unique-destined columns bulk-assign random values. -/
def recreateAddedColumnStmts (tFrom tTo : Table) : List String :=
  ((tTo.columns.filter
      (fun c => !(tFrom.hasColumn c.name))).map (fun column =>
    let tmpDefaultValueForOldTable : Option String :=
      if column.type = .integer || column.type = .real then some ("0") else some ("")
    let isPk := (tTo.primaryKey.find? (fun c => c.name = column.name)).isSome
    let isUnique := isPk || (tTo.uniques.find? (fun u =>
        u.columns.any (fun c => c = column.name) && u.columns.length = 1)).isSome
    let tmpDefaultValueForOldTable :=
      if column.defaultValue ≠ none && column.defaultValue ≠ some ("NULL") && !isUnique then
        column.defaultValue
      else tmpDefaultValueForOldTable
    let addStmts := addColumnToTableSQL tFrom.name
      (Column.make column.name column.type column.notNull tmpDefaultValueForOldTable
        column.autoIncrement)
    let fn := tFrom.name
    let cn := column.name
    if isUnique then
      addStmts ++ [s!"UPDATE `{fn}` SET `{cn}` = (abs(random()) % 10000000)"]
    else addStmts)).flatten

/-- `recreateTableSql(from, to)`: the nanoid suffix is the explicit `rand`
argument (the source draws 16 random hex characters). -/
def recreateTableSql (rand : String) (tFrom tTo : Table) : List String :=
  let newTmpName := tTo.name ++ ("__new__") ++ rand
  let columns := tTo.columns.map (fun c => c.name)
  recreateAddedColumnStmts tFrom tTo ++
    createTableSQL tTo false (some newTmpName) ++
    copyDataSQL tFrom.name newTmpName columns ++
    removeTableSQL tFrom.name ++
    [renameShadowStmt newTmpName tFrom.name]


end DrizzleTurso

namespace DrizzleTurso

/-! ### Diff engine (`differences` and helpers) -/

structure DifferencesOptions where
  creationMode : Bool
deriving DecidableEq

/-- `Operation` record: a title plus literal statements. -/
structure Operation where
  title : String
  sql : List String
deriving DecidableEq

structure PushSummary where
  addedColumns : List String
  removedColumns : List String
  addedTables : List String
  removedTables : List String
  recreatedTables : List String
  recreateReasons : List (String × String)
deriving DecidableEq

/-- Tagged operation, one constructor per `operations.push` site of
`differences`, in the source's emission order; `renderOp` turns it into the
`Operation` record the source builds at that site.  Owner-table names that
the source reads from `ownerTable` back-references are carried in the tag. -/
inductive DiffOp where
  | removeIndex (tableName : String) (indexName : String)
  | removeForeignKey (tableName : String) (column : Column)
  | createTable (table : Table)
  | removeTable (tableName : String)
  | addColumn (tableName : String) (column : Column)
  | removeColumn (tableName : String) (column : Column)
  | recreateTable (tableName : String) (oldTable newTable : Table) (suffix : String)
  | addForeignKey (tableName : String) (column : Column) (fk : ForeignKey)
  | addIndex (tableName : String) (indexName : String) (columns : List String)
deriving DecidableEq

def renderOp : DiffOp → Operation
  | .removeIndex _ indexName =>
    { title := s!"Remove index {indexName}", sql := [s!"DROP INDEX `{indexName}`"] }
  | .removeForeignKey tableName column =>
    let cn := column.name
    { title := s!"Remove foreign key {cn} from table {tableName}",
      sql := removeForeignKeyFromColumnSQL tableName column }
  | .createTable t =>
    let tn := t.name
    { title := s!"Create table {tn}", sql := createTableSQL t false }
  | .removeTable tableName =>
    { title := s!"Remove table {tableName}", sql := removeTableSQL tableName }
  | .addColumn tableName column =>
    let cn := column.name
    { title := s!"Add column {cn} to table {tableName}",
      sql := addColumnSQL tableName column }
  | .removeColumn tableName column =>
    let cn := column.name
    { title := s!"Remove column {cn} from table {tableName}",
      sql := removeColumnSQL tableName column }
  | .recreateTable tableName oldTable newTable suffix =>
    { title := s!"Recreate table {tableName}",
      sql := recreateTableSql suffix oldTable newTable }
  | .addForeignKey tableName column fk =>
    let cn := column.name
    { title := s!"Add foreign key {cn} to table {tableName}",
      sql := addForeignKeyToColumnSQL tableName column fk }
  | .addIndex tableName indexName columns =>
    { title := s!"Add index {indexName}",
      sql := addIndexToTableSQL tableName indexName columns }

/-- Tables present only in `from` (kept in `from` iteration order). -/
def getTablesToDelete (dfrom dto : Definitions) : List Table :=
  dfrom.tables.filter (fun t => !(dto.hasTable t.name))

/-- Tables present only in `to`. -/
def getTablesToAdd (dfrom dto : Definitions) : List Table :=
  dto.tables.filter (fun t => !(dfrom.hasTable t.name))

/-- `getColumnsToAddFromTables`, tagged with the owning (`to`) table name. -/
def getColumnsToAddFromTables (tFrom tTo : Table) : List (String × Column) :=
  (tTo.columns.filter (fun c => !(tFrom.hasColumn c.name))).map
    (fun c => (tTo.name, c))

/-- `getColumnsToAdd` (computed by `getTablesToRecreate`, never emitted). -/
def getColumnsToAdd (dfrom dto : Definitions) : List (String × Column) :=
  dto.tables.foldl (fun cols tTo =>
    match dfrom.getTable? tTo.name with
    | none => cols
    | some tFrom => (getColumnsToAddFromTables tFrom tTo).foldl addSet cols) []

/-- `getColumnsToDeleteFromTables`, tagged with the owning (`from`) table
name. -/
def getColumnsToDeleteFromTables (tFrom tTo : Table) : List (String × Column) :=
  (tFrom.columns.filter (fun c => !(tTo.hasColumn c.name))).map
    (fun c => (tFrom.name, c))

def getColumnsToDelete (dfrom dto : Definitions) : List (String × Column) :=
  dto.tables.foldl (fun cols tTo =>
    match dfrom.getTable? tTo.name with
    | none => cols
    | some tFrom => (getColumnsToDeleteFromTables tFrom tTo).foldl addSet cols) []

/-- `indexesEqual`: same uniqueness, same name, same encoded ordered column
list. -/
def indexesEqual (i j : Index) : Bool :=
  i.unique = j.unique && i.name = j.name &&
    String.intercalate (",") (i.columns.map encodeURIComponent) =
      String.intercalate (",") (j.columns.map encodeURIComponent)

/-- `getIndexesToAdd`: the per-snapshot index pools are name-keyed maps (a
later table's index shadows an earlier one with the same name). -/
def getIndexesToAdd (dfrom dto : Definitions) : List (String × Index) :=
  let indexesFrom := mkMap ((allIndexes dfrom).map (fun oi => (oi.2.name, oi)))
  let indexesTo := mkMap ((allIndexes dto).map (fun oi => (oi.2.name, oi)))
  indexesTo.foldl (fun s p =>
    match mapGet? indexesFrom p.1 with
    | none => addSet s p.2
    | some oif => if indexesEqual oif.2 p.2.2 then s else addSet s p.2) []

def getIndexesToRemove (dfrom dto : Definitions) : List (String × Index) :=
  let indexesFrom := mkMap ((allIndexes dfrom).map (fun oi => (oi.2.name, oi)))
  let indexesTo := mkMap ((allIndexes dto).map (fun oi => (oi.2.name, oi)))
  indexesFrom.foldl (fun s p =>
    match mapGet? indexesTo p.1 with
    | none => addSet s p.2
    | some oit => if indexesEqual p.2.2 oit.2 then s else addSet s p.2) []

/-- `stringifyColumnsList` on a list of column names. -/
def stringifyNames (ns : List String) : String :=
  String.intercalate (",") (sortStrings (ns.map encodeURIComponent))

def stringifyColumnsList (columns : List Column) : String :=
  stringifyNames (columns.map (fun c => c.name))

def primaryKeysEqual (tFrom tTo : Table) : Bool :=
  stringifyColumnsList tFrom.primaryKey = stringifyColumnsList tTo.primaryKey

def stringifyUnique (u : Unique) : String :=
  stringifyNames u.columns

def stringifyUniques (us : List Unique) : String :=
  String.intercalate (",") (sortStrings (dedup (us.map stringifyUnique)))

def uniquesEqual (tFrom tTo : Table) : Bool :=
  stringifyUniques tFrom.uniques = stringifyUniques tTo.uniques

def stringifyForeignKey (fk : ForeignKey) : String :=
  let colsFrom := stringifyColumnsList fk.localColumns
  let colsTo := stringifyNames fk.foreignColumns
  let ftn := fk.foreignTableName
  let dd := fk.onDelete.render
  let uu := fk.onUpdate.render
  s!"{colsFrom} -> {colsTo} on {ftn} | {dd} | {uu}"

def stringifyForeignKeys (fks : List ForeignKey) : String :=
  String.intercalate (",") (sortStrings (dedup (fks.map stringifyForeignKey)))

def foreignKeysEqual (tFrom tTo : Table) : Bool :=
  stringifyForeignKeys tFrom.foreignKeys = stringifyForeignKeys tTo.foreignKeys

/-- `tablesReferences`: foreign-table name, mapped to the (ordered) set of
names of tables holding a foreign key that targets it. -/
def tablesReferences (defs : Definitions) : List (String × List String) :=
  defs.tables.foldl (fun g t =>
    t.foreignKeys.foldl (fun g fk =>
      let ref := (mapGet? g fk.foreignTableName).getD []
      mapSet g fk.foreignTableName (addSet ref t.name)) g) []

/-- Owner-table names of `getColumnsToAdd` (a JS `Set` of names). -/
def addedColumnOwnerNames (dfrom dto : Definitions) : List String :=
  dedup ((getColumnsToAdd dfrom dto).map (fun p => p.1))

/-- The structural-trigger disjunction of `getTablesToRecreate`: primary key,
unique set, foreign-key set, unique-index presence on the `from` table, or a
newly added column. -/
def structuralTrigger (addNames : List String) (tFrom tTo : Table) : Bool :=
  !(primaryKeysEqual tFrom tTo) || !(uniquesEqual tFrom tTo) ||
    !(foreignKeysEqual tFrom tTo) || tFrom.indexes.any (fun i => i.unique) ||
    addNames.contains tFrom.name

/-- The shared-column reasons (type / notNull / default edits) collected for
one table pair. -/
def sharedColumnReasons (tFrom tTo : Table) : List String :=
  tFrom.columns.foldl (fun acc column =>
    match tTo.getColumn? column.name with
    | none => acc
    | some toColumn =>
      let cn := column.name
      let fn := tFrom.name
      let acc := if column.type ≠ toColumn.type then
          acc ++ [s!"type of column {cn} of table {fn}"] else acc
      let acc := if column.notNull ≠ toColumn.notNull then
          acc ++ [s!"notNull of column {cn} of table {fn}"] else acc
      if column.defaultValue ≠ toColumn.defaultValue then
        let dvf := (column.defaultValue).getD ("null")
        let dvt := (toColumn.defaultValue).getD ("null")
        acc ++ [s!"default of column {cn} of table {fn} (from {dvf} to {dvt})"]
      else acc) []

structure RecreateState where
  tablesToRecreate : List String
  tablesToDropReferences : List String
  recreateReasons : List (String × String)
deriving DecidableEq

/-- The reason tags pushed when some structural trigger fired, in push
order. -/
def structuralReasonTags (addNames : List String) (tFrom tTo : Table) :
    List String :=
  (if addNames.contains tFrom.name then ["added columns"] else []) ++
    (if !(primaryKeysEqual tFrom tTo) then ["pk"] else []) ++
    (if !(uniquesEqual tFrom tTo) then ["uniques"] else []) ++
    (if !(foreignKeysEqual tFrom tTo) then ["fks"] else []) ++
    (if tFrom.indexes.any (fun i => i.unique) then
      ["unique indexes (migrate to UNIQUE on definition)"] else [])

/-- The complete reason list for one table pair: shared-column edit reasons
first (pushed by the column loop), then the structural tags. -/
def recreateReason (addNames : List String) (tFrom tTo : Table) : List String :=
  sharedColumnReasons tFrom tTo ++
    (if structuralTrigger addNames tFrom tTo then
      structuralReasonTags addNames tFrom tTo else [])

/-- The cascade: every table referencing the triggering table and still
present in `to` is scheduled for reference dropping. -/
def cascadeDropRefs (dto : Definitions) (references : List (String × List String))
    (drops : List String) (tFrom : Table) : List String :=
  ((mapGet? references tFrom.name).getD []).foldl
    (fun s tn => if dto.hasTable tn then addSet s tn else s) drops

/-- One iteration of the `getTablesToRecreate` loop, for one `from` table. -/
def recreateStep (dto : Definitions) (references : List (String × List String))
    (addNames : List String) (st : RecreateState) (tFrom : Table) :
    RecreateState :=
  match dto.getTable? tFrom.name with
  | none => st
  | some tTo =>
    let structural := structuralTrigger addNames tFrom tTo
    let reason := recreateReason addNames tFrom tTo
    let dropRefs := if structural then
        cascadeDropRefs dto references st.tablesToDropReferences tFrom
      else st.tablesToDropReferences
    if reason ≠ [] then
      { tablesToRecreate := addSet st.tablesToRecreate tFrom.name
        tablesToDropReferences := addSet dropRefs tFrom.name
        recreateReasons :=
          mapSet st.recreateReasons tFrom.name (String.intercalate (", ") reason) }
    else { st with tablesToDropReferences := dropRefs }

def getTablesToRecreate (dfrom dto : Definitions) : RecreateState :=
  let references := tablesReferences dfrom
  let addNames := addedColumnOwnerNames dfrom dto
  dfrom.tables.foldl (recreateStep dto references addNames) ⟨[], [], []⟩

end DrizzleTurso

namespace DrizzleTurso

/-- Mutable working sets of `differences` that the recreated-table loop
adjusts before emission. -/
structure BookkeepingState where
  columnsToDelete : List (String × Column)
  columnsToAdd : List (String × Column)
  indexesToRemove : List (String × Index)
  indexesToAdd : List (String × Index)
deriving DecidableEq

/-- The loop `for (const name of tablesToRecreate) { ... }` of `differences`:
drops the recreated table's columns from the standalone column sets and
forces all its indexes into the index sets.  The non-null assertions of the
source (`from.tables.get(name)!`) become contract failures. -/
def recreateFold (dfrom dto : Definitions) :
    List String → BookkeepingState → Except String BookkeepingState
  | [], st => .ok st
  | name :: rest, st =>
    match dfrom.getTable? name, dto.getTable? name with
    | some tableFrom, some tableTo =>
      let cdel := tableFrom.columns.foldl
        (fun s c => delSet s (tableFrom.name, c)) st.columnsToDelete
      let cadd := tableTo.columns.foldl
        (fun s c => delSet s (tableTo.name, c)) st.columnsToAdd
      let irem := tableFrom.indexes.foldl
        (fun s i => addSet s (tableFrom.name, i)) st.indexesToRemove
      let iadd := tableTo.indexes.foldl
        (fun s i => addSet s (tableTo.name, i)) st.indexesToAdd
      recreateFold dfrom dto rest ⟨cdel, cadd, irem, iadd⟩
    | _, _ => .error (s!"Table not found: {name}")

/-- The recreate-operation loop: the i-th recreated table draws the i-th
random suffix.  `from.getTable`/`to.getTable` throw `Table not found` when
the classification bookkeeping is inconsistent. -/
def recreateOpsAux (dfrom dto : Definitions) (rand : Nat → String) :
    Nat → List String → Except String (List DiffOp)
  | _, [] => .ok []
  | i, name :: rest =>
    match dfrom.getTable? name with
    | none => .error (s!"Table not found: {name}")
    | some oldTable =>
      match dto.getTable? name with
      | none => .error (s!"Table not found: {name}")
      | some newTable =>
        match recreateOpsAux dfrom dto rand (i + 1) rest with
        | .error e => .error e
        | .ok restOps =>
          .ok (DiffOp.recreateTable name oldTable newTable (rand i) :: restOps)

/-- The drop-or-new check guarding one iteration of the foreign-key re-add
loop; the snapshot lookup is only reached when the drop-reference check
fails, matching the source short-circuit of `||`. -/
def fkAddCond (dto : Definitions) (tablesToAdd : List Table)
    (dropRefs : List String) (tn : String) : Except String Bool :=
  if dropRefs.contains tn then .ok true
  else
    match dto.getTable? tn with
    | none => .error (s!"Table not found: {tn}")
    | some t => .ok (tablesToAdd.contains t)

/-- The foreign-key re-add loop (already skipped entirely by the caller in
creation mode, matching the source `break`). -/
def fkAddLoop (dto : Definitions) (tablesToAdd : List Table)
    (dropRefs : List String) :
    List (String × ForeignKey) → Except String (List DiffOp)
  | [] => .ok []
  | (tn, fk) :: rest =>
    match fkAddCond dto tablesToAdd dropRefs tn with
    | .error e => .error e
    | .ok c =>
      match fkAddLoop dto tablesToAdd dropRefs rest with
      | .error e => .error e
      | .ok restOps =>
        if c then
          match fk.localColumns with
          | lc :: _ => .ok (DiffOp.addForeignKey tn lc fk :: restOps)
          | [] => .ok restOps
        else .ok restOps

/-- Emission segment 1: `DROP INDEX` operations. -/
def mkRemoveIndexOps (l : List (String × Index)) : List DiffOp :=
  l.map (fun oi => DiffOp.removeIndex oi.1 oi.2.name)

/-- Emission segment 2: drop the single-column foreign keys of every table in
the drop-references set. -/
def mkRemoveFkOps (dfrom : Definitions) (dropRefs : List String) : List DiffOp :=
  (allSingleColumnForeignKeys dfrom).filterMap (fun ofk =>
    if dropRefs.contains ofk.1 then
      match ofk.2.localColumns with
      | lc :: _ => some (DiffOp.removeForeignKey ofk.1 lc)
      | [] => none
    else none)

/-- Emission segment 3: create the brand-new tables. -/
def mkCreateOps (tablesToAdd : List Table) : List DiffOp :=
  tablesToAdd.map DiffOp.createTable

/-- Emission segment 4: drop the removed tables. -/
def mkDropOps (tablesToDelete : List Table) : List DiffOp :=
  tablesToDelete.map (fun t => DiffOp.removeTable t.name)

/-- Emission segment 5: standalone column additions. -/
def mkAddColOps (l : List (String × Column)) : List DiffOp :=
  l.map (fun p => DiffOp.addColumn p.1 p.2)

/-- Emission segment 6: standalone column removals. -/
def mkRemColOps (l : List (String × Column)) : List DiffOp :=
  l.map (fun p => DiffOp.removeColumn p.1 p.2)

/-- Emission segment 9: index creations. -/
def mkAddIdxOps (l : List (String × Index)) : List DiffOp :=
  l.map (fun oi => DiffOp.addIndex oi.1 oi.2.name oi.2.columns)

/-- The summary record returned alongside the operations. -/
def mkSummary (tablesToAdd tablesToDelete : List Table) (st : RecreateState)
    (bk : BookkeepingState) : PushSummary :=
  { addedColumns := bk.columnsToAdd.map (fun p =>
      let tn := p.1
      let cn := p.2.name
      s!"{tn}.{cn}")
    removedColumns := bk.columnsToDelete.map (fun p =>
      let tn := p.1
      let cn := p.2.name
      s!"{tn}.{cn}")
    addedTables := tablesToAdd.map (fun t => t.name)
    removedTables := tablesToDelete.map (fun t => t.name)
    recreatedTables := st.tablesToRecreate
    recreateReasons := st.recreateReasons }

/-- Everything `differences` does after the two verification loops, with the
operations kept in tagged form.  The appended segments are the source's nine
emission loops, in order. -/
def buildOps (dfrom dto : Definitions) (creationMode : Bool)
    (rand : Nat → String) : Except String (PushSummary × List DiffOp) :=
  let tablesToDelete := getTablesToDelete dfrom dto
  let tablesToAdd := getTablesToAdd dfrom dto
  let columnsToAdd0 : List (String × Column) := []
  let columnsToDelete0 := getColumnsToDelete dfrom dto
  let st := getTablesToRecreate dfrom dto
  let indexesToAdd0 := getIndexesToAdd dfrom dto
  let indexesToRemove0 := getIndexesToRemove dfrom dto
  match recreateFold dfrom dto st.tablesToRecreate
      ⟨columnsToDelete0, columnsToAdd0, indexesToRemove0, indexesToAdd0⟩ with
  | .error e => .error e
  | .ok bk =>
    match recreateOpsAux dfrom dto rand 0 st.tablesToRecreate with
    | .error e => .error e
    | .ok recOps =>
      match (if creationMode then .ok [] else
          fkAddLoop dto tablesToAdd st.tablesToDropReferences
            (allSingleColumnForeignKeys dto) : Except String (List DiffOp)) with
      | .error e => .error e
      | .ok fkAddOps =>
        .ok (mkSummary tablesToAdd tablesToDelete st bk,
          mkRemoveIndexOps bk.indexesToRemove ++
          mkRemoveFkOps dfrom st.tablesToDropReferences ++
          mkCreateOps tablesToAdd ++
          mkDropOps tablesToDelete ++
          mkAddColOps bk.columnsToAdd ++
          mkRemColOps bk.columnsToDelete ++
          recOps ++ fkAddOps ++
          mkAddIdxOps bk.indexesToAdd)

/-- `differences(from, to, options)` in tagged form: creation-mode
precondition, verification of both snapshots, then classification and
emission. -/
def differencesT (dfrom dto : Definitions) (options : Option DifferencesOptions)
    (rand : Nat → String) : Except String (PushSummary × List DiffOp) :=
  if (options.map DifferencesOptions.creationMode).getD false &&
      dfrom.tables.length > 0 then
    .error ("Creation mode is not supported for existing tables")
  else
    match verifyList dfrom dfrom.tables with
    | .error e => .error e
    | .ok () =>
      match verifyList dto dto.tables with
      | .error e => .error e
      | .ok () =>
        buildOps dfrom dto ((options.map DifferencesOptions.creationMode).getD false) rand

/-- `differences` with the operations rendered to `Operation` records. -/
def differences (dfrom dto : Definitions) (options : Option DifferencesOptions)
    (rand : Nat → String) : Except String (PushSummary × List Operation) :=
  match differencesT dfrom dto options rand with
  | .error e => .error e
  | .ok (s, ops) => .ok (s, ops.map renderOp)

end DrizzleTurso

namespace DrizzleTurso

/-! ### Default-literal encoding (`transformDefault` in `src/drizzle.ts`)

JavaScript runtime values reaching `transformDefault` are modelled by the
image the function reads from them: a number by its `toString()` rendering, a
drizzle `SQL` expression by the string its own `toQuery` escaping produces,
and any other object by its `JSON.stringify` encoding. -/

inductive JsDefault where
  | undef
  | nullVal
  | str (s : String)
  | num (toStringImage : String)
  | bool (b : Bool)
  | sqlExpr (queryImage : String)
  | other (jsonImage : String)
deriving DecidableEq

/-- The single-quote character, written by code point. -/
def sq : Char := Char.ofNat 39

/-- `escapeString`: single-quote the value, doubling embedded single quotes
(the global regex replace works character by character). -/
def escapeString (value : String) : String :=
  (value.foldl
    (fun acc c => if c = sq then (acc.push sq).push sq else acc.push c)
    (String.singleton sq)).push sq

def transformDefault : JsDefault → String
  | .undef => "NULL"
  | .nullVal => "NULL"
  | .str s => escapeString s
  | .num t => t
  | .bool b => if b then "1" else "0"
  | .sqlExpr q => q
  | .other j => escapeString j

end DrizzleTurso

namespace DrizzleTurso

/-! ### Lemma library: ordered sets, ordered maps, folds, keyed lookups -/

theorem mem_addSet {α : Type} [DecidableEq α] {s : List α} {a b : α} :
    b ∈ addSet s a ↔ b ∈ s ∨ b = a := by
  unfold addSet
  split
  · constructor
    · exact fun h => Or.inl h
    · rintro (h | rfl)
      · exact h
      · assumption
  · simp [List.mem_append]

theorem mem_addSet_self {α : Type} [DecidableEq α] (s : List α) (a : α) :
    a ∈ addSet s a := mem_addSet.mpr (Or.inr rfl)

theorem mem_addSet_of_mem {α : Type} [DecidableEq α] {s : List α} {b : α}
    (a : α) (h : b ∈ s) : b ∈ addSet s a := mem_addSet.mpr (Or.inl h)

theorem mem_delSet {α : Type} [DecidableEq α] {s : List α} {a b : α} :
    b ∈ delSet s a ↔ b ∈ s ∧ b ≠ a := by
  unfold delSet
  simp [List.mem_filter]

theorem mem_of_mem_delSet {α : Type} [DecidableEq α] {s : List α} {a b : α}
    (h : b ∈ delSet s a) : b ∈ s := (mem_delSet.mp h).1

theorem not_mem_delSet_self {α : Type} [DecidableEq α] (s : List α) (a : α) :
    a ∉ delSet s a := fun h => (mem_delSet.mp h).2 rfl

/-- Updating the value at key `k` in place rewrites exactly the `find?` result
for key `k`. -/
theorem find?_keyUpdate {α : Type} (m : List (String × α)) (k : String) (v : α) :
    List.find? (fun p => p.1 = k) (m.map (fun p => if p.1 = k then (k, v) else p)) =
      (List.find? (fun p => p.1 = k) m).map (fun _ => (k, v)) := by
  induction m with
  | nil => simp
  | cons q rest ih =>
    by_cases hq : q.1 = k
    · rw [List.map_cons, if_pos hq]
      rw [List.find?_cons_of_pos _ (by simp), List.find?_cons_of_pos _ (by simp [hq])]
      rfl
    · rw [List.map_cons, if_neg hq]
      rw [List.find?_cons_of_neg _ (by simp [hq]), List.find?_cons_of_neg _ (by simp [hq])]
      exact ih

/-- An in-place key update leaves `find?` for other keys unchanged. -/
theorem find?_keyUpdate_ne {α : Type} (m : List (String × α)) {k kb : String}
    (v : α) (h : kb ≠ k) :
    List.find? (fun p => p.1 = kb) (m.map (fun p => if p.1 = k then (k, v) else p)) =
      List.find? (fun p => p.1 = kb) m := by
  induction m with
  | nil => simp
  | cons q rest ih =>
    by_cases hq : q.1 = k
    · rw [List.map_cons, if_pos hq]
      rw [List.find?_cons_of_neg _ (by simp [Ne.symm h]),
        List.find?_cons_of_neg _ (by simp [hq, Ne.symm h])]
      exact ih
    · rw [List.map_cons, if_neg hq]
      by_cases hqb : q.1 = kb
      · rw [List.find?_cons_of_pos _ (by simp [hqb]), List.find?_cons_of_pos _ (by simp [hqb])]
      · rw [List.find?_cons_of_neg _ (by simp [hqb]), List.find?_cons_of_neg _ (by simp [hqb])]
        exact ih

theorem mapGet?_mapSet_self {α : Type} (m : List (String × α)) (k : String)
    (v : α) : mapGet? (mapSet m k v) k = some v := by
  unfold mapSet
  split
  · next hany =>
    unfold mapGet?
    rw [find?_keyUpdate]
    obtain ⟨p, hp, hpk⟩ := List.any_eq_true.mp hany
    have : (List.find? (fun p => p.1 = k) m).isSome := by
      rw [List.find?_isSome]
      exact ⟨p, hp, hpk⟩
    obtain ⟨q, hq⟩ := Option.isSome_iff_exists.mp this
    rw [hq]
    rfl
  · next hany =>
    unfold mapGet?
    rw [List.find?_append]
    have hnone : List.find? (fun p => (p.1 = k : Bool)) m = none := by
      rw [List.find?_eq_none]
      intro p hp hpk
      exact (Bool.not_eq_true _).mpr (by simpa using fun hh => hany (List.any_eq_true.mpr ⟨p, hp, by simpa using hh⟩)) hpk
    rw [hnone]
    simp

theorem mapGet?_mapSet_ne {α : Type} (m : List (String × α)) {k kb : String}
    (v : α) (h : kb ≠ k) : mapGet? (mapSet m k v) kb = mapGet? m kb := by
  unfold mapSet
  split
  · unfold mapGet?
    rw [find?_keyUpdate_ne m v h]
  · unfold mapGet?
    rw [List.find?_append]
    have : List.find? (fun p => (p.1 = kb : Bool)) [(k, v)] = none := by
      rw [List.find?_eq_none]
      intro p hp
      simp at hp
      simp [hp, Ne.symm h]
    rw [this]
    simp

theorem foldl_preserve {σ α : Type} (P : σ → Prop) (f : σ → α → σ)
    (l : List α) (pres : ∀ s a, P s → P (f s a)) :
    ∀ s0, P s0 → P (l.foldl f s0) := by
  induction l with
  | nil => exact fun s0 h => h
  | cons a rest ih =>
    intro s0 h
    exact ih (f s0 a) (pres s0 a h)

theorem foldl_reach {σ α : Type} (P : σ → Prop) (f : σ → α → σ)
    (l : List α) (a : α) (ha : a ∈ l) (estab : ∀ s, P (f s a))
    (pres : ∀ s b, P s → P (f s b)) :
    ∀ s0, P (l.foldl f s0) := by
  induction l with
  | nil => cases ha
  | cons b rest ih =>
    intro s0
    rcases List.mem_cons.mp ha with rfl | hmem
    · exact foldl_preserve P f rest pres (f s0 a) (estab s0)
    · exact ih hmem (f s0 b)

/-- A membership found by `find?` under a name-key predicate, on a list with
duplicate-free keys, is found exactly. -/
theorem find?_key_nodup {α : Type} (key : α → String) {l : List α}
    (hnd : (l.map key).Nodup) {a : α} (ha : a ∈ l) :
    l.find? (fun x => key x = key a) = some a := by
  induction l with
  | nil => cases ha
  | cons b rest ih =>
    simp only [List.map_cons, List.nodup_cons] at hnd
    rcases List.mem_cons.mp ha with rfl | hmem
    · simp [List.find?]
    · rw [List.find?]
      have hne : key b ≠ key a := by
        intro hk
        exact hnd.1 (hk ▸ List.mem_map_of_mem key hmem)
      have : (decide (key b = key a)) = false := by simp [hne]
      rw [this]
      exact ih hnd.2 hmem

/-- `find?` under a predicate that factors through a projection agrees, up to
the projection, on lists with equal projections. -/
theorem find?_map_eq {α : Type} (f : α → α) (q : α → Bool)
    (hq : ∀ x, q (f x) = q x) :
    ∀ {l₁ l₂ : List α}, l₁.map f = l₂.map f →
      (l₁.find? q).map f = (l₂.find? q).map f := by
  intro l₁
  induction l₁ with
  | nil =>
    intro l₂ h
    cases l₂ with
    | nil => rfl
    | cons b bs => simp at h
  | cons a as ih =>
    intro l₂ h
    cases l₂ with
    | nil => simp at h
    | cons b bs =>
      simp only [List.map_cons, List.cons.injEq] at h
      rw [List.find?, List.find?]
      have hab : q a = q b := by rw [← hq a, ← hq b, h.1]
      cases hb : q b with
      | true =>
        rw [hab, hb]
        simpa using h.1
      | false =>
        rw [hab, hb]
        exact ih h.2

end DrizzleTurso

namespace DrizzleTurso

theorem foldl_preserve_mem {σ α : Type} (P : σ → Prop) (f : σ → α → σ) :
    ∀ (l : List α), (∀ s a, a ∈ l → P s → P (f s a)) →
      ∀ s0, P s0 → P (l.foldl f s0) := by
  intro l
  induction l with
  | nil => exact fun _ s0 h => h
  | cons a rest ih =>
    intro pres s0 h
    exact ih (fun s b hb => pres s b (List.mem_cons_of_mem a hb)) (f s0 a)
      (pres s0 a (List.mem_cons_self a rest) h)

theorem mapSet_keys {α : Type} (m : List (String × α)) (k : String) (v : α) :
    (mapSet m k v).map Prod.fst =
      if m.any (fun p => p.1 = k) then m.map Prod.fst
      else m.map Prod.fst ++ [k] := by
  unfold mapSet
  split
  · next h =>
    rw [List.map_map]
    apply List.map_congr_left
    intro p _
    by_cases hp : p.1 = k
    · simp [hp]
    · simp [hp]
  · next h => rw [List.map_append]; rfl

theorem mkMap_keys_nodup {α : Type} (l : List (String × α)) :
    ((mkMap l).map Prod.fst).Nodup := by
  unfold mkMap
  refine foldl_preserve (fun m => (m.map Prod.fst).Nodup)
    (fun m p => mapSet m p.1 p.2) l ?_ [] (by simp)
  intro m p h
  rw [mapSet_keys]
  split
  · exact h
  · next hany =>
    rw [List.nodup_append]
    refine ⟨h, List.nodup_singleton _, ?_⟩
    intro x hx hxk
    rw [List.mem_singleton] at hxk
    subst hxk
    obtain ⟨q, hq, hqk⟩ := List.mem_map.mp hx
    exact hany (List.any_eq_true.mpr ⟨q, hq, by simp [hqk]⟩)

theorem mapGet?_of_mem_nodupKeys {α : Type} {m : List (String × α)}
    (hnd : (m.map Prod.fst).Nodup) {p : String × α} (hp : p ∈ m) :
    mapGet? m p.1 = some p.2 := by
  unfold mapGet?
  rw [find?_key_nodup Prod.fst hnd hp]
  rfl

theorem mem_mkMap {α : Type} [DecidableEq α] {l : List (String × α)} {p : String × α}
    (hp : p ∈ mkMap l) : p ∈ l := by
  unfold mkMap at hp
  revert hp
  refine foldl_preserve_mem (fun m => ∀ q ∈ m, q ∈ l) _ l ?_ [] (by simp) p
  intro m a ha hm q hq
  unfold mapSet at hq
  split at hq
  · obtain ⟨r, hr, hrq⟩ := List.mem_map.mp hq
    by_cases hrk : r.1 = a.1
    · rw [if_pos hrk] at hrq
      subst hrq
      exact ha
    · rw [if_neg hrk] at hrq
      subst hrq
      exact hm r hr
  · rcases List.mem_append.mp hq with h | h
    · exact hm q h
    · rw [List.mem_singleton] at h
      subst h
      exact ha

theorem mem_dedup {l : List String} {a : String} : a ∈ dedup l ↔ a ∈ l := by
  unfold dedup
  constructor
  · intro h
    revert h
    refine foldl_preserve_mem (fun acc => ∀ x ∈ acc, x ∈ l) _ l ?_ [] (by simp) a
    intro acc b hb hacc x hx
    rcases mem_addSet.mp hx with h | rfl
    · exact hacc x h
    · exact hb
  · intro h
    exact foldl_reach (fun acc => a ∈ acc) _ l a h
      (fun s => mem_addSet_self s a) (fun s b hs => mem_addSet_of_mem b hs) []

theorem contains_iff_mem {a : String} {l : List String} :
    l.contains a = true ↔ a ∈ l := List.elem_iff

end DrizzleTurso

namespace DrizzleTurso

/-! ### Operation classification helpers -/

/-- The table an operation is about (the table whose schema object the
emission loop was iterating). -/
def DiffOp.subjectTable : DiffOp → String
  | .removeIndex tn _ => tn
  | .removeForeignKey tn _ => tn
  | .createTable t => t.name
  | .removeTable tn => tn
  | .addColumn tn _ => tn
  | .removeColumn tn _ => tn
  | .recreateTable tn _ _ _ => tn
  | .addForeignKey tn _ _ => tn
  | .addIndex tn _ _ => tn

def DiffOp.isAddForeignKeyOp : DiffOp → Bool
  | .addForeignKey _ _ _ => true
  | _ => false

def DiffOp.isAddColumnOp : DiffOp → Bool
  | .addColumn _ _ => true
  | _ => false

def DiffOp.isRemoveColumnOp : DiffOp → Bool
  | .removeColumn _ _ => true
  | _ => false

def DiffOp.isRemoveIndexOp : DiffOp → Bool
  | .removeIndex _ _ => true
  | _ => false

def DiffOp.isAddIndexOp : DiffOp → Bool
  | .addIndex _ _ _ => true
  | _ => false

def DiffOp.isRemoveFkOp : DiffOp → Bool
  | .removeForeignKey _ _ => true
  | _ => false

/-- Create-table, remove-table and recreate-table operations. -/
def DiffOp.isStructureOp : DiffOp → Bool
  | .createTable _ => true
  | .removeTable _ => true
  | .recreateTable _ _ _ _ => true
  | _ => false

/-! ### Snapshot lookup lemmas -/

theorem getTable?_eq_some {d : Definitions} {n : String} {t : Table}
    (h : d.getTable? n = some t) : t ∈ d.tables ∧ t.name = n := by
  unfold Definitions.getTable? at h
  exact ⟨List.mem_of_find?_eq_some h, by simpa using List.find?_some h⟩

theorem hasTable_of_mem {d : Definitions} {t : Table} (h : t ∈ d.tables) :
    d.hasTable t.name = true := by
  unfold Definitions.hasTable Definitions.getTable?
  rw [List.find?_isSome]
  exact ⟨t, h, by simp⟩

theorem hasTable_iff {d : Definitions} {n : String} :
    d.hasTable n = true ↔ ∃ t ∈ d.tables, t.name = n := by
  unfold Definitions.hasTable Definitions.getTable?
  rw [List.find?_isSome]
  constructor
  · rintro ⟨t, ht, hn⟩
    exact ⟨t, ht, by simpa using hn⟩
  · rintro ⟨t, ht, hn⟩
    exact ⟨t, ht, by simpa using hn⟩

theorem getColumn?_eq_some {t : Table} {n : String} {c : Column}
    (h : t.getColumn? n = some c) : c ∈ t.columns ∧ c.name = n := by
  unfold Table.getColumn? at h
  exact ⟨List.mem_of_find?_eq_some h, by simpa using List.find?_some h⟩

theorem hasColumn_of_mem {t : Table} {c : Column} (h : c ∈ t.columns) :
    t.hasColumn c.name = true := by
  unfold Table.hasColumn Table.getColumn?
  rw [List.find?_isSome]
  exact ⟨c, h, by simp⟩

theorem mem_allSingleColumnForeignKeys {d : Definitions} {tn : String}
    {fk : ForeignKey} :
    (tn, fk) ∈ allSingleColumnForeignKeys d ↔
      ∃ t ∈ d.tables, t.name = tn ∧ fk ∈ t.foreignKeys ∧
        fk.localColumns.length = 1 := by
  unfold allSingleColumnForeignKeys
  rw [List.mem_flatten]
  constructor
  · rintro ⟨sub, hsub, hmem⟩
    obtain ⟨t, ht, rfl⟩ := List.mem_map.mp hsub
    obtain ⟨fk', hfk', heq⟩ := List.mem_map.mp hmem
    obtain ⟨hfk'', hlen⟩ := List.mem_filter.mp hfk'
    cases heq
    exact ⟨t, ht, rfl, hfk'', by simpa using hlen⟩
  · rintro ⟨t, ht, rfl, hfk, hlen⟩
    refine ⟨_, List.mem_map_of_mem _ ht, ?_⟩
    exact List.mem_map_of_mem _ (List.mem_filter.mpr ⟨hfk, by simpa using hlen⟩)

theorem mem_allIndexes {d : Definitions} {tn : String} {i : Index} :
    (tn, i) ∈ allIndexes d ↔ ∃ t ∈ d.tables, t.name = tn ∧ i ∈ t.indexes := by
  unfold allIndexes
  rw [List.mem_flatten]
  constructor
  · rintro ⟨sub, hsub, hmem⟩
    obtain ⟨t, ht, rfl⟩ := List.mem_map.mp hsub
    obtain ⟨i', hi', heq⟩ := List.mem_map.mp hmem
    cases heq
    exact ⟨t, ht, rfl, hi'⟩
  · rintro ⟨t, ht, rfl, hi⟩
    exact ⟨_, List.mem_map_of_mem _ ht, List.mem_map_of_mem _ hi⟩

end DrizzleTurso

namespace DrizzleTurso

/-! ### Decomposition of a successful run -/

theorem differencesT_ok {dfrom dto : Definitions} {options : Option DifferencesOptions}
    {rand : Nat → String} {s : PushSummary} {ops : List DiffOp}
    (h : differencesT dfrom dto options rand = .ok (s, ops)) :
    buildOps dfrom dto ((options.map DifferencesOptions.creationMode).getD false)
      rand = .ok (s, ops) := by
  unfold differencesT at h
  split at h
  · exact absurd h (by simp)
  · split at h
    · exact absurd h (by simp)
    · split at h
      · exact absurd h (by simp)
      · exact h

theorem buildOps_ok {dfrom dto : Definitions} {cm : Bool} {rand : Nat → String}
    {s : PushSummary} {ops : List DiffOp}
    (h : buildOps dfrom dto cm rand = .ok (s, ops)) :
    ∃ bk recOps fkAddOps,
      recreateFold dfrom dto (getTablesToRecreate dfrom dto).tablesToRecreate
        ⟨getColumnsToDelete dfrom dto, [], getIndexesToRemove dfrom dto,
          getIndexesToAdd dfrom dto⟩ = .ok bk ∧
      recreateOpsAux dfrom dto rand 0
        (getTablesToRecreate dfrom dto).tablesToRecreate = .ok recOps ∧
      (if cm then Except.ok [] else
        fkAddLoop dto (getTablesToAdd dfrom dto)
          (getTablesToRecreate dfrom dto).tablesToDropReferences
          (allSingleColumnForeignKeys dto)) = .ok fkAddOps ∧
      s = mkSummary (getTablesToAdd dfrom dto) (getTablesToDelete dfrom dto)
        (getTablesToRecreate dfrom dto) bk ∧
      ops = mkRemoveIndexOps bk.indexesToRemove ++
        mkRemoveFkOps dfrom (getTablesToRecreate dfrom dto).tablesToDropReferences ++
        mkCreateOps (getTablesToAdd dfrom dto) ++
        mkDropOps (getTablesToDelete dfrom dto) ++
        mkAddColOps bk.columnsToAdd ++
        mkRemColOps bk.columnsToDelete ++
        recOps ++ fkAddOps ++ mkAddIdxOps bk.indexesToAdd := by
  simp only [buildOps] at h
  cases hbk : recreateFold dfrom dto (getTablesToRecreate dfrom dto).tablesToRecreate
      ⟨getColumnsToDelete dfrom dto, [], getIndexesToRemove dfrom dto,
        getIndexesToAdd dfrom dto⟩ with
  | error e => rw [hbk] at h; simp at h
  | ok bk =>
    rw [hbk] at h
    cases hrec : recreateOpsAux dfrom dto rand 0
        (getTablesToRecreate dfrom dto).tablesToRecreate with
    | error e => rw [hrec] at h; simp at h
    | ok recOps =>
      rw [hrec] at h
      cases hfk : (if cm then Except.ok [] else
          fkAddLoop dto (getTablesToAdd dfrom dto)
            (getTablesToRecreate dfrom dto).tablesToDropReferences
            (allSingleColumnForeignKeys dto) : Except String (List DiffOp)) with
      | error e => rw [hfk] at h; simp at h
      | ok fkAddOps =>
        rw [hfk] at h
        simp only [Except.ok.injEq, Prod.mk.injEq] at h
        exact ⟨bk, recOps, fkAddOps, rfl, rfl, rfl, h.1.symm, h.2.symm⟩

end DrizzleTurso

namespace DrizzleTurso

/-- `recreateStep` keeps the invariant that recreated names resolve in both
snapshots and drop-reference names resolve in `to`. -/
theorem recreateStep_hasTable_inv (dfrom dto : Definitions)
    (references : List (String × List String)) (addNames : List String)
    (tFrom : Table) (hmem : tFrom ∈ dfrom.tables) (st : RecreateState)
    (h1 : ∀ n ∈ st.tablesToRecreate,
      dto.hasTable n = true ∧ dfrom.hasTable n = true)
    (h2 : ∀ n ∈ st.tablesToDropReferences, dto.hasTable n = true) :
    (∀ n ∈ (recreateStep dto references addNames st tFrom).tablesToRecreate,
      dto.hasTable n = true ∧ dfrom.hasTable n = true) ∧
    (∀ n ∈ (recreateStep dto references addNames st tFrom).tablesToDropReferences,
      dto.hasTable n = true) := by
  unfold recreateStep
  cases hto : dto.getTable? tFrom.name with
  | none => exact ⟨h1, h2⟩
  | some tTo =>
    have hdto : dto.hasTable tFrom.name = true := by
      unfold Definitions.hasTable
      rw [hto]
      rfl
    have hdfrom : dfrom.hasTable tFrom.name = true := hasTable_of_mem hmem
    have hdrop : ∀ n ∈ (if structuralTrigger addNames tFrom tTo then
          cascadeDropRefs dto references st.tablesToDropReferences tFrom
        else st.tablesToDropReferences), dto.hasTable n = true := by
      split
      · unfold cascadeDropRefs
        refine foldl_preserve (fun sset => ∀ n ∈ sset, dto.hasTable n = true)
          _ _ ?_ _ h2
        intro sset tn hset
        split
        · next htn =>
          intro n hn
          rcases mem_addSet.mp hn with h | rfl
          · exact hset n h
          · exact htn
        · exact hset
      · exact h2
    dsimp only
    split
    · refine ⟨?_, ?_⟩
      · intro n hn
        rcases mem_addSet.mp hn with h | rfl
        · exact h1 n h
        · exact ⟨hdto, hdfrom⟩
      · intro n hn
        rcases mem_addSet.mp hn with h | rfl
        · exact hdrop n h
        · exact hdto
    · exact ⟨h1, hdrop⟩

/-- Every name scheduled for recreation resolves in both snapshots, and every
name in the drop-references set resolves in `to`. -/
theorem recreateState_hasTable (dfrom dto : Definitions) :
    (∀ n ∈ (getTablesToRecreate dfrom dto).tablesToRecreate,
        dto.hasTable n = true ∧ dfrom.hasTable n = true) ∧
    (∀ n ∈ (getTablesToRecreate dfrom dto).tablesToDropReferences,
        dto.hasTable n = true) := by
  unfold getTablesToRecreate
  refine foldl_preserve_mem
    (fun (st : RecreateState) => (∀ n ∈ st.tablesToRecreate,
        dto.hasTable n = true ∧ dfrom.hasTable n = true) ∧
      (∀ n ∈ st.tablesToDropReferences, dto.hasTable n = true))
    _ dfrom.tables ?_ (⟨[], [], []⟩ : RecreateState)
    (⟨fun n hn => absurd hn (List.not_mem_nil n), fun n hn => absurd hn (List.not_mem_nil n)⟩)
  rintro st tFrom hmem ⟨h1, h2⟩
  exact recreateStep_hasTable_inv dfrom dto _ _ tFrom hmem st h1 h2

end DrizzleTurso

namespace DrizzleTurso

theorem recreateOpsAux_mem {dfrom dto : Definitions} {rand : Nat → String} :
    ∀ {i : Nat} {names : List String} {recOps : List DiffOp},
      recreateOpsAux dfrom dto rand i names = .ok recOps →
      ∀ op ∈ recOps, ∃ name oldT newT j, op = .recreateTable name oldT newT (rand j) ∧
        name ∈ names ∧ dfrom.getTable? name = some oldT ∧
        dto.getTable? name = some newT := by
  intro i names
  induction names generalizing i with
  | nil =>
    intro recOps h op hop
    unfold recreateOpsAux at h
    rw [Except.ok.injEq] at h
    subst h
    cases hop
  | cons name rest ih =>
    intro recOps h op hop
    unfold recreateOpsAux at h
    cases hold : dfrom.getTable? name with
    | none => rw [hold] at h; simp at h
    | some oldT =>
      rw [hold] at h
      cases hnew : dto.getTable? name with
      | none => rw [hnew] at h; simp at h
      | some newT =>
        rw [hnew] at h
        cases hrest : recreateOpsAux dfrom dto rand (i + 1) rest with
        | error e => rw [hrest] at h; simp at h
        | ok restOps =>
          rw [hrest] at h
          rw [Except.ok.injEq] at h
          subst h
          rcases List.mem_cons.mp hop with rfl | hmem
          · exact ⟨name, oldT, newT, i, rfl, List.mem_cons_self _ _, hold, hnew⟩
          · obtain ⟨n, o, t, j, e1, e2, e3, e4⟩ := ih hrest op hmem
            exact ⟨n, o, t, j, e1, List.mem_cons_of_mem _ e2, e3, e4⟩

theorem fkAddCond_ok_true {dto : Definitions} {tablesToAdd : List Table}
    {dropRefs : List String} {tn : String}
    (h : fkAddCond dto tablesToAdd dropRefs tn = .ok true) :
    dropRefs.contains tn = true ∨
      ∃ t, dto.getTable? tn = some t ∧ tablesToAdd.contains t = true := by
  unfold fkAddCond at h
  by_cases hdr : dropRefs.contains tn = true
  · exact Or.inl hdr
  · rw [if_neg hdr] at h
    cases hget : dto.getTable? tn with
    | none => rw [hget] at h; cases h
    | some t =>
      rw [hget] at h
      rw [Except.ok.injEq] at h
      exact Or.inr ⟨t, rfl, h⟩

theorem fkAddLoop_mem {dto : Definitions} {tablesToAdd : List Table}
    {dropRefs : List String} :
    ∀ {l : List (String × ForeignKey)} {ops : List DiffOp},
      fkAddLoop dto tablesToAdd dropRefs l = .ok ops →
      ∀ op ∈ ops, ∃ tn fk lc rest2, (tn, fk) ∈ l ∧
        op = .addForeignKey tn lc fk ∧ fk.localColumns = lc :: rest2 ∧
        (dropRefs.contains tn = true ∨
          ∃ t, dto.getTable? tn = some t ∧ tablesToAdd.contains t = true) := by
  intro l
  induction l with
  | nil =>
    intro ops h op hop
    unfold fkAddLoop at h
    rw [Except.ok.injEq] at h
    subst h
    cases hop
  | cons p rest ih =>
    intro ops h op hop
    obtain ⟨tn, fk⟩ := p
    unfold fkAddLoop at h
    cases hcond : fkAddCond dto tablesToAdd dropRefs tn with
    | error e => rw [hcond] at h; cases h
    | ok c =>
      rw [hcond] at h
      cases hrest : fkAddLoop dto tablesToAdd dropRefs rest with
      | error e => rw [hrest] at h; dsimp only at h; cases h
      | ok restOps =>
        rw [hrest] at h
        dsimp only at h
        cases c with
        | false =>
          rw [if_neg (by simp)] at h
          rw [Except.ok.injEq] at h
          subst h
          obtain ⟨n, f, cc, r2, e1, e2, e3, e4⟩ := ih hrest op hop
          exact ⟨n, f, cc, r2, List.mem_cons_of_mem _ e1, e2, e3, e4⟩
        | true =>
          rw [if_pos rfl] at h
          cases hlc : fk.localColumns with
          | nil =>
            rw [hlc] at h
            rw [Except.ok.injEq] at h
            subst h
            obtain ⟨n, f, cc, r2, e1, e2, e3, e4⟩ := ih hrest op hop
            exact ⟨n, f, cc, r2, List.mem_cons_of_mem _ e1, e2, e3, e4⟩
          | cons lc rest2 =>
            rw [hlc] at h
            rw [Except.ok.injEq] at h
            subst h
            rcases List.mem_cons.mp hop with rfl | hmem
            · exact ⟨tn, fk, lc, rest2, List.mem_cons_self _ _, rfl, hlc,
                fkAddCond_ok_true hcond⟩
            · obtain ⟨n, f, cc, r2, e1, e2, e3, e4⟩ := ih hrest op hmem
              exact ⟨n, f, cc, r2, List.mem_cons_of_mem _ e1, e2, e3, e4⟩

end DrizzleTurso

namespace DrizzleTurso

/-! ### Claim C9: default-literal encoding -/

/-- The quote-doubling body transformation of `escapeString`, character by
character. -/
def escBody : List Char → List Char
  | [] => []
  | c :: rest => (if c = sq then [sq, sq] else [c]) ++ escBody rest

theorem escapeString_foldl (l : List Char) :
    ∀ acc : String,
      (l.foldl (fun acc c => if c = sq then (acc.push sq).push sq else acc.push c)
        acc).data = acc.data ++ escBody l := by
  induction l with
  | nil => intro acc; simp [escBody]
  | cons c rest ih =>
    intro acc
    rw [List.foldl_cons, ih, escBody]
    by_cases hc : c = sq
    · simp [hc, String.data_push]
    · simp [hc, String.data_push]

theorem escapeString_data (v : String) :
    (escapeString v).data = sq :: escBody v.data ++ [sq] := by
  unfold escapeString
  rw [String.data_push, String.foldl_eq, escapeString_foldl]
  rfl

/-- C9: `transformDefault` maps absent values (undefined and null) to the
literal `NULL`; a string to a single-quoted literal with embedded single
quotes doubled; a number to its `toString` rendering; a boolean to `1` or
`0`; and any other non-expression value to its JSON encoding single-quoted
with the same quote doubling. -/
theorem c9_transform_default_encoding :
    transformDefault .undef = "NULL" ∧
    transformDefault .nullVal = "NULL" ∧
    (∀ s : String, (transformDefault (.str s)).data = sq :: escBody s.data ++ [sq]) ∧
    (∀ t : String, transformDefault (.num t) = t) ∧
    transformDefault (.bool true) = "1" ∧
    transformDefault (.bool false) = "0" ∧
    (∀ j : String, (transformDefault (.other j)).data = sq :: escBody j.data ++ [sq]) := by
  refine ⟨rfl, rfl, ?_, fun t => rfl, rfl, rfl, ?_⟩
  · intro s
    exact escapeString_data s
  · intro j
    exact escapeString_data j

/-! ### Claim C10: verification forces a dense primary key -/

/-- C10: any sparse primary-key array that passes `verifyPrimaryKey` has no
unfilled slot (every entry below the highest assigned slot is filled), even
though `setColumnAsPrimaryKey` happily creates holes (slot 3 on an empty
array leaves slots 1 and 2 unset), and such a sparse array is rejected by
verification before statement generation.  The dense `Table.primaryKey` used
by the diff and statement layers is justified by this theorem, since
`Table.verify` runs `verifyPrimaryKeySparse` first. -/
theorem c10_verified_primary_key_dense (columns : List Column)
    (pk : List (Option Column)) (col : Column)
    (h : verifyPrimaryKeySparse columns pk = .ok ()) :
    pk.all Option.isSome = true ∧
    setColumnAsPrimaryKey [] col 3 = .ok [none, none, some col] ∧
    verifyPrimaryKeySparse columns [none, none, some col] =
      .error ("Primary key column is undefined") := by
  refine ⟨?_, by rfl, by rfl⟩
  induction pk with
  | nil => rfl
  | cons x rest ih =>
    cases x with
    | none => exact absurd h (by simp [verifyPrimaryKeySparse])
    | some c =>
      unfold verifyPrimaryKeySparse at h
      split at h
      · rw [List.all_cons, ih h]
        rfl
      · exact absurd h (by simp)

/-- Witness for C10 at a concrete input: a filled two-slot primary key passes
verification and is hole-free. -/
theorem c10_witness :
    ([some (Column.mk ("id") .integer true none false)] :
      List (Option Column)).all Option.isSome = true ∧
    setColumnAsPrimaryKey [] (Column.mk ("id") .integer true none false) 3 =
      .ok [none, none, some (Column.mk ("id") .integer true none false)] ∧
    verifyPrimaryKeySparse [Column.mk ("id") .integer true none false]
      [none, none, some (Column.mk ("id") .integer true none false)] =
      .error ("Primary key column is undefined") :=
  c10_verified_primary_key_dense
    [Column.mk ("id") .integer true none false]
    [some (Column.mk ("id") .integer true none false)]
    (Column.mk ("id") .integer true none false) (by rfl)

end DrizzleTurso

namespace DrizzleTurso

/-! ### Membership shape of each emission segment -/

theorem mem_mkRemoveIndexOps {l : List (String × Index)} {op : DiffOp} :
    op ∈ mkRemoveIndexOps l ↔ ∃ p ∈ l, op = DiffOp.removeIndex p.1 p.2.name := by
  unfold mkRemoveIndexOps
  rw [List.mem_map]
  constructor
  · rintro ⟨p, hp, rfl⟩; exact ⟨p, hp, rfl⟩
  · rintro ⟨p, hp, rfl⟩; exact ⟨p, hp, rfl⟩

theorem mem_mkRemoveFkOps {dfrom : Definitions} {dropRefs : List String}
    {op : DiffOp} :
    op ∈ mkRemoveFkOps dfrom dropRefs ↔
      ∃ tn fk lc rest, (tn, fk) ∈ allSingleColumnForeignKeys dfrom ∧
        dropRefs.contains tn = true ∧ fk.localColumns = lc :: rest ∧
        op = DiffOp.removeForeignKey tn lc := by
  unfold mkRemoveFkOps
  rw [List.mem_filterMap]
  constructor
  · rintro ⟨⟨tn, fk⟩, hp, hsome⟩
    split at hsome
    · next hdr =>
      cases hlc : fk.localColumns with
      | nil => rw [hlc] at hsome; cases hsome
      | cons lc rest =>
        rw [hlc] at hsome
        rw [Option.some.injEq] at hsome
        exact ⟨tn, fk, lc, rest, hp, hdr, hlc, hsome.symm⟩
    · cases hsome
  · rintro ⟨tn, fk, lc, rest, hp, hdr, hlc, rfl⟩
    refine ⟨(tn, fk), hp, ?_⟩
    rw [if_pos hdr, hlc]

theorem mem_mkCreateOps {l : List Table} {op : DiffOp} :
    op ∈ mkCreateOps l ↔ ∃ t ∈ l, op = DiffOp.createTable t := by
  unfold mkCreateOps
  rw [List.mem_map]
  constructor
  · rintro ⟨t, ht, rfl⟩; exact ⟨t, ht, rfl⟩
  · rintro ⟨t, ht, rfl⟩; exact ⟨t, ht, rfl⟩

theorem mem_mkDropOps {l : List Table} {op : DiffOp} :
    op ∈ mkDropOps l ↔ ∃ t ∈ l, op = DiffOp.removeTable t.name := by
  unfold mkDropOps
  rw [List.mem_map]
  constructor
  · rintro ⟨t, ht, rfl⟩; exact ⟨t, ht, rfl⟩
  · rintro ⟨t, ht, rfl⟩; exact ⟨t, ht, rfl⟩

theorem mem_mkAddColOps {l : List (String × Column)} {op : DiffOp} :
    op ∈ mkAddColOps l ↔ ∃ p ∈ l, op = DiffOp.addColumn p.1 p.2 := by
  unfold mkAddColOps
  rw [List.mem_map]
  constructor
  · rintro ⟨p, hp, rfl⟩; exact ⟨p, hp, rfl⟩
  · rintro ⟨p, hp, rfl⟩; exact ⟨p, hp, rfl⟩

theorem mem_mkRemColOps {l : List (String × Column)} {op : DiffOp} :
    op ∈ mkRemColOps l ↔ ∃ p ∈ l, op = DiffOp.removeColumn p.1 p.2 := by
  unfold mkRemColOps
  rw [List.mem_map]
  constructor
  · rintro ⟨p, hp, rfl⟩; exact ⟨p, hp, rfl⟩
  · rintro ⟨p, hp, rfl⟩; exact ⟨p, hp, rfl⟩

theorem mem_mkAddIdxOps {l : List (String × Index)} {op : DiffOp} :
    op ∈ mkAddIdxOps l ↔
      ∃ p ∈ l, op = DiffOp.addIndex p.1 p.2.name p.2.columns := by
  unfold mkAddIdxOps
  rw [List.mem_map]
  constructor
  · rintro ⟨p, hp, rfl⟩; exact ⟨p, hp, rfl⟩
  · rintro ⟨p, hp, rfl⟩; exact ⟨p, hp, rfl⟩

end DrizzleTurso

namespace DrizzleTurso

/-- Shape of every operation in a successful run: each operation comes from
one of the nine emission segments, with the segment's defining facts. -/
theorem buildOps_op_shape {dfrom dto : Definitions} {cm : Bool}
    {rand : Nat → String} {s : PushSummary} {ops : List DiffOp}
    (h : buildOps dfrom dto cm rand = .ok (s, ops)) :
    ∃ bk, recreateFold dfrom dto (getTablesToRecreate dfrom dto).tablesToRecreate
        ⟨getColumnsToDelete dfrom dto, [], getIndexesToRemove dfrom dto,
          getIndexesToAdd dfrom dto⟩ = .ok bk ∧
      s = mkSummary (getTablesToAdd dfrom dto) (getTablesToDelete dfrom dto)
        (getTablesToRecreate dfrom dto) bk ∧
      ∀ op ∈ ops,
        (∃ p ∈ bk.indexesToRemove, op = DiffOp.removeIndex p.1 p.2.name) ∨
        (∃ tn fk lc rest, (tn, fk) ∈ allSingleColumnForeignKeys dfrom ∧
          (getTablesToRecreate dfrom dto).tablesToDropReferences.contains tn = true ∧
          fk.localColumns = lc :: rest ∧ op = DiffOp.removeForeignKey tn lc) ∨
        (∃ t ∈ getTablesToAdd dfrom dto, op = DiffOp.createTable t) ∨
        (∃ t ∈ getTablesToDelete dfrom dto, op = DiffOp.removeTable t.name) ∨
        (∃ p ∈ bk.columnsToAdd, op = DiffOp.addColumn p.1 p.2) ∨
        (∃ p ∈ bk.columnsToDelete, op = DiffOp.removeColumn p.1 p.2) ∨
        (∃ name oldT newT j, op = DiffOp.recreateTable name oldT newT (rand j) ∧
          name ∈ (getTablesToRecreate dfrom dto).tablesToRecreate ∧
          dfrom.getTable? name = some oldT ∧ dto.getTable? name = some newT) ∨
        (cm = false ∧ ∃ tn fk lc rest2,
          (tn, fk) ∈ allSingleColumnForeignKeys dto ∧
          op = DiffOp.addForeignKey tn lc fk ∧ fk.localColumns = lc :: rest2 ∧
          ((getTablesToRecreate dfrom dto).tablesToDropReferences.contains tn = true ∨
            ∃ t, dto.getTable? tn = some t ∧
              (getTablesToAdd dfrom dto).contains t = true)) ∨
        (∃ p ∈ bk.indexesToAdd, op = DiffOp.addIndex p.1 p.2.name p.2.columns) := by
  obtain ⟨bk, recOps, fkOps, hbk, hrec, hfk, hs, hops⟩ := buildOps_ok h
  refine ⟨bk, hbk, hs, ?_⟩
  intro op hop
  rw [hops] at hop
  simp only [List.mem_append] at hop
  rcases hop with ((((((((h1 | h2) | h3) | h4) | h5) | h6) | h7) | h8) | h9)
  · exact Or.inl (mem_mkRemoveIndexOps.mp h1)
  · obtain ⟨tn, fk, lc, rest, ha, hb2, hc, hd⟩ := mem_mkRemoveFkOps.mp h2
    exact Or.inr (Or.inl ⟨tn, fk, lc, rest, ha, hb2, hc, hd⟩)
  · exact Or.inr (Or.inr (Or.inl (mem_mkCreateOps.mp h3)))
  · exact Or.inr (Or.inr (Or.inr (Or.inl (mem_mkDropOps.mp h4))))
  · exact Or.inr (Or.inr (Or.inr (Or.inr (Or.inl (mem_mkAddColOps.mp h5)))))
  · exact Or.inr (Or.inr (Or.inr (Or.inr (Or.inr (Or.inl (mem_mkRemColOps.mp h6))))))
  · obtain ⟨name, oldT, newT, j, e1, e2, e3, e4⟩ := recreateOpsAux_mem hrec op h7
    exact Or.inr (Or.inr (Or.inr (Or.inr (Or.inr (Or.inr (Or.inl
      ⟨name, oldT, newT, j, e1, e2, e3, e4⟩))))))
  · cases cm with
    | true =>
      rw [if_pos rfl] at hfk
      rw [Except.ok.injEq] at hfk
      subst hfk
      cases h8
    | false =>
      rw [if_neg (by simp)] at hfk
      obtain ⟨tn, fk, lc, rest2, e1, e2, e3, e4⟩ := fkAddLoop_mem hfk op h8
      exact Or.inr (Or.inr (Or.inr (Or.inr (Or.inr (Or.inr (Or.inr (Or.inl
        ⟨rfl, tn, fk, lc, rest2, e1, e2, e3, e4⟩)))))))
  · exact Or.inr (Or.inr (Or.inr (Or.inr (Or.inr (Or.inr (Or.inr (Or.inr
      (mem_mkAddIdxOps.mp h9))))))))

end DrizzleTurso

namespace DrizzleTurso

/-- Projection helpers for stating concrete runs. -/
def resultSummary (e : Except String (PushSummary × List DiffOp)) : PushSummary :=
  match e with
  | .ok (s, _) => s
  | .error _ => ⟨[], [], [], [], [], []⟩

def resultOps (e : Except String (PushSummary × List DiffOp)) : List DiffOp :=
  match e with
  | .ok (_, ops) => ops
  | .error _ => []

def resultRenderedOps (e : Except String (PushSummary × List Operation)) :
    List Operation :=
  match e with
  | .ok (_, ops) => ops
  | .error _ => []

/-! ### Claim C8: creation mode -/

/-- C8: with `creationMode` set, `differences` fails with the mode-violation
error whenever `from` holds at least one table (an error result carries no
operations at all), and on any successful creation-mode run (empty `from`)
the operation list contains no add-foreign-key operation. -/
theorem c8_creation_mode (dfrom dto : Definitions) (rand : Nat → String) :
    (dfrom.tables ≠ [] →
      differencesT dfrom dto (some ⟨true⟩) rand =
        .error ("Creation mode is not supported for existing tables")) ∧
    (∀ s ops, differencesT dfrom dto (some ⟨true⟩) rand = .ok (s, ops) →
      ops.all (fun op => !(op.isAddForeignKeyOp)) = true) := by
  constructor
  · intro h1
    have hlen : 0 < dfrom.tables.length := List.length_pos.mpr h1
    unfold differencesT
    rw [if_pos (by simp [hlen])]
  · intro s ops h
    have hb : buildOps dfrom dto true rand = .ok (s, ops) := differencesT_ok h
    obtain ⟨bk, _, _, hshape⟩ := buildOps_op_shape hb
    rw [List.all_eq_true]
    intro op hop
    rcases hshape op hop with h1 | h2 | h3 | h4 | h5 | h6 | h7 | h8 | h9
    · obtain ⟨p, _, rfl⟩ := h1; rfl
    · obtain ⟨tn, fk, lc, rest, _, _, _, rfl⟩ := h2; rfl
    · obtain ⟨t, _, rfl⟩ := h3; rfl
    · obtain ⟨t, _, rfl⟩ := h4; rfl
    · obtain ⟨p, _, rfl⟩ := h5; rfl
    · obtain ⟨p, _, rfl⟩ := h6; rfl
    · obtain ⟨name, oldT, newT, j, rfl, _, _, _⟩ := h7; rfl
    · exact absurd h8.1 (by simp)
    · obtain ⟨p, _, rfl⟩ := h9; rfl

def c8rand : Nat → String := fun _ => "0123456789abcdef"

def c8colId : Column := ⟨"id", .integer, true, none, false⟩
def c8colUserId : Column := ⟨"user_id", .integer, false, none, false⟩
def c8users : Table := ⟨"users", [c8colId], [c8colId], [], [], []⟩
def c8postsFk : ForeignKey := ⟨"users", ["id"], [c8colUserId], .noAction, .cascade⟩
def c8posts : Table := ⟨"posts", [c8colId, c8colUserId], [c8colId], [c8postsFk], [], []⟩
def c8to : Definitions := ⟨[c8users, c8posts]⟩

/-- Witness for C8: a non-empty `from` is rejected in creation mode, and the
successful creation-mode run from an empty snapshot (to a schema containing a
single-column foreign key) emits no add-foreign-key operation. -/
theorem c8_witness :
    differencesT c8to c8to (some ⟨true⟩) c8rand =
      .error ("Creation mode is not supported for existing tables") ∧
    (resultOps (differencesT ⟨[]⟩ c8to (some ⟨true⟩) c8rand)).all
      (fun op => !(op.isAddForeignKeyOp)) = true := by
  constructor
  · exact (c8_creation_mode c8to c8to c8rand).1 (by decide)
  · exact (c8_creation_mode ⟨[]⟩ c8to c8rand).2
      (resultSummary (differencesT ⟨[]⟩ c8to (some ⟨true⟩) c8rand))
      (resultOps (differencesT ⟨[]⟩ c8to (some ⟨true⟩) c8rand)) (by rfl)

end DrizzleTurso

namespace DrizzleTurso

/-! ### Claim C2: determinism up to the random temp-table suffix -/

/-- Replace the randomly drawn temp-name suffix of a recreate operation by a
fixed marker; all other operations are untouched. -/
def DiffOp.eraseSuffix : DiffOp → DiffOp
  | .recreateTable tn o n _ => .recreateTable tn o n ""
  | op => op

def eraseRandOps : Except String (List DiffOp) → Except String (List DiffOp)
  | .error e => .error e
  | .ok ops => .ok (ops.map DiffOp.eraseSuffix)

def eraseRand : Except String (PushSummary × List DiffOp) →
    Except String (PushSummary × List DiffOp)
  | .error e => .error e
  | .ok (s, ops) => .ok (s, ops.map DiffOp.eraseSuffix)

theorem recreateOpsAux_eraseRand (dfrom dto : Definitions)
    (r1 r2 : Nat → String) :
    ∀ (names : List String) (i1 i2 : Nat),
      eraseRandOps (recreateOpsAux dfrom dto r1 i1 names) =
        eraseRandOps (recreateOpsAux dfrom dto r2 i2 names) := by
  intro names
  induction names with
  | nil => intro i1 i2; rfl
  | cons name rest ih =>
    intro i1 i2
    unfold recreateOpsAux
    cases hold : dfrom.getTable? name with
    | none => rfl
    | some oldT =>
      cases hnew : dto.getTable? name with
      | none => rfl
      | some newT =>
        have hih := ih (i1 + 1) (i2 + 1)
        cases hA : recreateOpsAux dfrom dto r1 (i1 + 1) rest with
        | error e =>
          rw [hA] at hih
          cases hB : recreateOpsAux dfrom dto r2 (i2 + 1) rest with
          | error e2 =>
            rw [hB] at hih
            unfold eraseRandOps at hih
            rw [Except.error.injEq] at hih
            subst hih
            rfl
          | ok ops2 =>
            rw [hB] at hih
            exact absurd hih (by simp [eraseRandOps])
        | ok ops1 =>
          rw [hA] at hih
          cases hB : recreateOpsAux dfrom dto r2 (i2 + 1) rest with
          | error e2 =>
            rw [hB] at hih
            exact absurd hih (by simp [eraseRandOps])
          | ok ops2 =>
            rw [hB] at hih
            unfold eraseRandOps at hih
            rw [Except.ok.injEq] at hih
            dsimp only
            unfold eraseRandOps
            rw [Except.ok.injEq]
            rw [List.map_cons, List.map_cons, hih]
            rfl

theorem buildOps_eraseRand (dfrom dto : Definitions) (cm : Bool)
    (r1 r2 : Nat → String) :
    eraseRand (buildOps dfrom dto cm r1) = eraseRand (buildOps dfrom dto cm r2) := by
  simp only [buildOps]
  cases hbk : recreateFold dfrom dto (getTablesToRecreate dfrom dto).tablesToRecreate
      ⟨getColumnsToDelete dfrom dto, [], getIndexesToRemove dfrom dto,
        getIndexesToAdd dfrom dto⟩ with
  | error e => rfl
  | ok bk =>
    have hih := recreateOpsAux_eraseRand dfrom dto r1 r2
      (getTablesToRecreate dfrom dto).tablesToRecreate 0 0
    cases hA : recreateOpsAux dfrom dto r1 0
        (getTablesToRecreate dfrom dto).tablesToRecreate with
    | error e =>
      rw [hA] at hih
      cases hB : recreateOpsAux dfrom dto r2 0
          (getTablesToRecreate dfrom dto).tablesToRecreate with
      | error e2 =>
        rw [hB] at hih
        unfold eraseRandOps at hih
        rw [Except.error.injEq] at hih
        subst hih
        rfl
      | ok ops2 =>
        rw [hB] at hih
        exact absurd hih (by simp [eraseRandOps])
    | ok ops1 =>
      rw [hA] at hih
      cases hB : recreateOpsAux dfrom dto r2 0
          (getTablesToRecreate dfrom dto).tablesToRecreate with
      | error e2 =>
        rw [hB] at hih
        exact absurd hih (by simp [eraseRandOps])
      | ok ops2 =>
        rw [hB] at hih
        unfold eraseRandOps at hih
        rw [Except.ok.injEq] at hih
        cases hfk : (if cm then Except.ok [] else
            fkAddLoop dto (getTablesToAdd dfrom dto)
              (getTablesToRecreate dfrom dto).tablesToDropReferences
              (allSingleColumnForeignKeys dto) : Except String (List DiffOp)) with
        | error e => rfl
        | ok fkOps =>
          unfold eraseRand
          rw [Except.ok.injEq, Prod.mk.injEq]
          refine ⟨rfl, ?_⟩
          simp only [List.map_append]
          rw [hih]

end DrizzleTurso

namespace DrizzleTurso

/-- C2 (amended): the diff pipeline is deterministic up to the randomly drawn
temp-table suffixes: for any two suffix oracles, the two runs fail with the
same error or succeed with the same summary and the same operations after
erasing the recreate suffix.  In particular summaries, titles, and every
statement outside the recreate sequences are identical across runs. -/
theorem c2_deterministic_up_to_suffix (dfrom dto : Definitions)
    (options : Option DifferencesOptions) (r1 r2 : Nat → String) :
    eraseRand (differencesT dfrom dto options r1) =
      eraseRand (differencesT dfrom dto options r2) := by
  unfold differencesT
  split
  · rfl
  · cases h1 : verifyList dfrom dfrom.tables with
    | error e => rfl
    | ok u =>
      cases u
      cases h2 : verifyList dto dto.tables with
      | error e => rfl
      | ok u =>
        cases u
        exact buildOps_eraseRand dfrom dto _ r1 r2

def c2colId : Column := ⟨"id", .integer, true, none, false⟩
def c2colA : Column := ⟨"name", .text, false, none, false⟩
def c2colB : Column := ⟨"name", .text, false, some ("x"), false⟩
def c2from : Definitions := ⟨[⟨"users", [c2colId, c2colA], [c2colId], [], [], []⟩]⟩
def c2to : Definitions := ⟨[⟨"users", [c2colId, c2colB], [c2colId], [], [], []⟩]⟩
def c2randA : Nat → String := fun _ => "aaaaaaaaaaaaaaaa"
def c2randB : Nat → String := fun _ => "bbbbbbbbbbbbbbbb"

/-- Counterexample for C2 as stated: on a pair of snapshots that triggers one
table recreation, two runs on identical inputs but different random draws
produce different SQL text (the shadow-table temp name differs). -/
theorem c2_counterexample :
    (resultRenderedOps (differences c2from c2to none c2randA)).map Operation.sql ≠
      (resultRenderedOps (differences c2from c2to none c2randB)).map Operation.sql := by
  decide

end DrizzleTurso

namespace DrizzleTurso

/-! ### Claim C5: no incremental add-column -/

theorem recreateFold_cadd_nil {dfrom dto : Definitions} :
    ∀ {names : List String} {st : BookkeepingState} {bk : BookkeepingState},
      recreateFold dfrom dto names st = .ok bk →
      st.columnsToAdd = [] → bk.columnsToAdd = [] := by
  intro names
  induction names with
  | nil =>
    intro st bk h hst
    unfold recreateFold at h
    rw [Except.ok.injEq] at h
    subst h
    exact hst
  | cons name rest ih =>
    intro st bk h hst
    unfold recreateFold at h
    cases hf : dfrom.getTable? name with
    | none => rw [hf] at h; cases h
    | some tableFrom =>
      cases ht : dto.getTable? name with
      | none => rw [hf, ht] at h; cases h
      | some tableTo =>
        rw [hf, ht] at h
        refine ih h ?_
        dsimp only
        rw [hst]
        exact foldl_preserve (fun (l : List (String × Column)) => l = []) _
          tableTo.columns (fun l c hl => by rw [hl]; rfl) [] rfl

theorem recreateStep_recreate_mono (dto : Definitions)
    (references : List (String × List String)) (addNames : List String)
    (st : RecreateState) (tFrom : Table) {n : String}
    (h : n ∈ st.tablesToRecreate) :
    n ∈ (recreateStep dto references addNames st tFrom).tablesToRecreate := by
  unfold recreateStep
  cases dto.getTable? tFrom.name with
  | none => exact h
  | some tTo =>
    dsimp only
    split
    · exact mem_addSet_of_mem _ h
    · exact h

theorem recreateStep_mem_recreate_of_inAdd (dto : Definitions)
    (references : List (String × List String)) (addNames : List String)
    (st : RecreateState) (tFrom : Table)
    (hto : (dto.getTable? tFrom.name).isSome = true)
    (hin : addNames.contains tFrom.name = true) :
    tFrom.name ∈ (recreateStep dto references addNames st tFrom).tablesToRecreate := by
  unfold recreateStep
  cases hget : dto.getTable? tFrom.name with
  | none => rw [hget] at hto; cases hto
  | some tTo =>
    dsimp only
    have htrig : structuralTrigger addNames tFrom tTo = true := by
      unfold structuralTrigger
      rw [hin]
      simp
    have hne : recreateReason addNames tFrom tTo ≠ [] := by
      unfold recreateReason
      rw [if_pos htrig]
      unfold structuralReasonTags
      rw [if_pos hin]
      simp
    rw [if_pos hne]
    exact mem_addSet_self _ _

theorem mem_getColumnsToAdd {dfrom dto : Definitions} {tt tf : Table} {c : Column}
    (htt : tt ∈ dto.tables) (htf : dfrom.getTable? tt.name = some tf)
    (hc : c ∈ tt.columns) (habs : tf.hasColumn c.name = false) :
    (tt.name, c) ∈ getColumnsToAdd dfrom dto := by
  unfold getColumnsToAdd
  refine foldl_reach (fun cols => (tt.name, c) ∈ cols) _ dto.tables tt htt
    ?_ ?_ []
  · intro cols
    rw [htf]
    have hx : (tt.name, c) ∈ getColumnsToAddFromTables tf tt := by
      unfold getColumnsToAddFromTables
      exact List.mem_map_of_mem _ (List.mem_filter.mpr ⟨hc, by simp [habs]⟩)
    exact foldl_reach (fun cols => (tt.name, c) ∈ cols) _ _ _ hx
      (fun s => mem_addSet_self s _) (fun s b hs => mem_addSet_of_mem b hs) cols
  · intro cols t' hmem
    cases dfrom.getTable? t'.name with
    | none => exact hmem
    | some tf' =>
      exact foldl_preserve (fun cols => (tt.name, c) ∈ cols) _ _
        (fun s b hs => mem_addSet_of_mem b hs) cols hmem

/-- A shared table with a new `to` column is scheduled for recreation. -/
theorem mem_recreate_of_new_column {dfrom dto : Definitions} {tt tf : Table}
    {c : Column} (htt : tt ∈ dto.tables)
    (htf : dfrom.getTable? tt.name = some tf) (hc : c ∈ tt.columns)
    (habs : tf.hasColumn c.name = false) :
    tt.name ∈ (getTablesToRecreate dfrom dto).tablesToRecreate := by
  obtain ⟨htfmem, htfname⟩ := getTable?_eq_some htf
  unfold getTablesToRecreate
  have hin : (addedColumnOwnerNames dfrom dto).contains tt.name = true := by
    rw [contains_iff_mem]
    unfold addedColumnOwnerNames
    rw [mem_dedup]
    exact List.mem_map_of_mem Prod.fst (mem_getColumnsToAdd htt htf hc habs)
  have hto : (dto.getTable? tf.name).isSome = true := by
    rw [htfname]
    unfold Definitions.getTable?
    rw [List.find?_isSome]
    exact ⟨tt, htt, by simp⟩
  rw [← htfname]
  refine foldl_reach (fun (st : RecreateState) => tf.name ∈ st.tablesToRecreate)
    _ dfrom.tables tf htfmem ?_ ?_ (⟨[], [], []⟩ : RecreateState)
  · intro st
    exact recreateStep_mem_recreate_of_inAdd dto _ _ st tf hto
      (htfname ▸ hin)
  · intro st b hmem
    exact recreateStep_recreate_mono dto _ _ st b hmem

/-- C5: `differences` never emits an add-column operation, the summary's
addedColumns list is always empty, and a column present in `to` but absent
from `from` on a shared table routes that table through full recreation. -/
theorem c5_no_incremental_add_column (dfrom dto : Definitions)
    (options : Option DifferencesOptions) (rand : Nat → String)
    (s : PushSummary) (ops : List DiffOp)
    (h : differencesT dfrom dto options rand = .ok (s, ops)) :
    s.addedColumns = [] ∧
    ops.all (fun op => !(op.isAddColumnOp)) = true ∧
    ∀ tt ∈ dto.tables, ∀ tf, dfrom.getTable? tt.name = some tf →
      ∀ c ∈ tt.columns, tf.hasColumn c.name = false →
        s.recreatedTables.contains tt.name = true := by
  have hb := differencesT_ok h
  obtain ⟨bk, hbk, hs, hshape⟩ := buildOps_op_shape hb
  have hcadd : bk.columnsToAdd = [] := recreateFold_cadd_nil hbk rfl
  refine ⟨?_, ?_, ?_⟩
  · rw [hs]
    unfold mkSummary
    rw [hcadd]
    rfl
  · rw [List.all_eq_true]
    intro op hop
    rcases hshape op hop with h1 | h2 | h3 | h4 | h5 | h6 | h7 | h8 | h9
    · obtain ⟨p, _, rfl⟩ := h1; rfl
    · obtain ⟨tn, fk, lc, rest, _, _, _, rfl⟩ := h2; rfl
    · obtain ⟨t, _, rfl⟩ := h3; rfl
    · obtain ⟨t, _, rfl⟩ := h4; rfl
    · obtain ⟨p, hp, rfl⟩ := h5
      rw [hcadd] at hp
      cases hp
    · obtain ⟨p, _, rfl⟩ := h6; rfl
    · obtain ⟨name, oldT, newT, j, rfl, _, _, _⟩ := h7; rfl
    · obtain ⟨_, tn, fk, lc, rest2, _, rfl, _, _⟩ := h8; rfl
    · obtain ⟨p, _, rfl⟩ := h9; rfl
  · intro tt htt tf htf c hc habs
    rw [hs]
    unfold mkSummary
    rw [contains_iff_mem]
    exact mem_recreate_of_new_column htt htf hc habs

end DrizzleTurso

namespace DrizzleTurso

def c5colId : Column := ⟨"id", .integer, true, none, false⟩
def c5colName : Column := ⟨"name", .text, false, none, false⟩
def c5tf : Table := ⟨"users", [c5colId], [c5colId], [], [], []⟩
def c5tt : Table := ⟨"users", [c5colId, c5colName], [c5colId], [], [], []⟩
def c5from : Definitions := ⟨[c5tf]⟩
def c5to : Definitions := ⟨[c5tt]⟩
def c5rand : Nat → String := fun _ => "cccccccccccccccc"

/-- Witness for C5: adding a `name` column to the existing `users` table
yields no add-column operation, an empty addedColumns summary, and routes
`users` through recreation. -/
theorem c5_witness :
    (resultSummary (differencesT c5from c5to none c5rand)).addedColumns = [] ∧
    (resultOps (differencesT c5from c5to none c5rand)).all
      (fun op => !(op.isAddColumnOp)) = true ∧
    (resultSummary (differencesT c5from c5to none c5rand)).recreatedTables.contains
      ("users") = true := by
  have h : differencesT c5from c5to none c5rand =
      .ok (resultSummary (differencesT c5from c5to none c5rand),
        resultOps (differencesT c5from c5to none c5rand)) := by rfl
  have hmain := c5_no_incremental_add_column c5from c5to none c5rand _ _ h
  exact ⟨hmain.1, hmain.2.1,
    hmain.2.2 c5tt (by decide) c5tf (by rfl) c5colName (by decide) (by rfl)⟩

end DrizzleTurso

namespace DrizzleTurso

/-! ### Claim C6: shape of the recreate-table statement sequence -/

/-- The table with its single-column foreign keys removed (multi-column ones
kept). -/
def multiFkOnly (t : Table) : Table :=
  { t with
    foreignKeys := t.foreignKeys.filter (fun fk => fk.localColumns.length ≠ 1) }

theorem find?_single_on_multi (fks : List ForeignKey) (n : String) :
    (fks.filter (fun fk => fk.localColumns.length ≠ 1)).find?
      (fun fk => match fk.localColumns with
        | [c] => c.name = n
        | _ => false) = none := by
  rw [List.find?_eq_none]
  intro fk hfk
  obtain ⟨_, hlen⟩ := List.mem_filter.mp hfk
  cases hlc : fk.localColumns with
  | nil => simp [hlc]
  | cons c rest =>
    cases rest with
    | nil =>
      rw [hlc] at hlen
      simp at hlen
    | cons d rest2 => simp [hlc]

theorem filterMap_on_multi {β : Type} (fks : List ForeignKey)
    (f : ForeignKey → Option β)
    (hf : ∀ fk, fk.localColumns.length = 1 → f fk = none) :
    (fks.filter (fun fk => fk.localColumns.length ≠ 1)).filterMap f =
      fks.filterMap f := by
  induction fks with
  | nil => rfl
  | cons fk rest ih =>
    by_cases hlen : fk.localColumns.length = 1
    · rw [List.filter_cons, if_neg (by simp [hlen]), List.filterMap_cons,
        hf fk hlen, ih]
    · rw [List.filter_cons, if_pos (by simp [hlen]), List.filterMap_cons,
        List.filterMap_cons, ih]

end DrizzleTurso

namespace DrizzleTurso

theorem createColRow_no_refs (t : Table) (col : Column) :
    createColRow t false col = createColRow (multiFkOnly t) true col := by
  unfold createColRow multiFkOnly
  dsimp only
  rw [find?_single_on_multi t.foreignKeys col.name]
  cases t.foreignKeys.find? (fun fk =>
    match fk.localColumns with
    | [c] => c.name = col.name
    | _ => false) with
  | none => rfl
  | some fk => simp

theorem createFkRows_no_singles (t : Table) :
    createFkRows t = createFkRows (multiFkOnly t) := by
  unfold createFkRows multiFkOnly
  dsimp only
  rw [filterMap_on_multi]
  intro fk hlen
  rw [if_pos hlen]

/-- A create-table statement rendered without reference clauses equals the
one rendered with them for the table stripped of its single-column foreign
keys: `references = false` only drops the inline single-column REFERENCES
clauses, while column definitions, primary key, uniques and multi-column
FOREIGN KEY rows are kept. -/
theorem createTableSQL_no_single_refs (t : Table) (nm : Option String) :
    createTableSQL t false nm = createTableSQL (multiFkOnly t) true nm := by
  unfold createTableSQL
  dsimp only
  have hname : (multiFkOnly t).name = t.name := rfl
  have hcols : (multiFkOnly t).columns = t.columns := rfl
  have hrows : t.columns.map (createColRow t false) =
      (multiFkOnly t).columns.map (createColRow (multiFkOnly t) true) := by
    rw [hcols]
    apply List.map_congr_left
    intro col _
    exact createColRow_no_refs t col
  have hpk : createPkRows (multiFkOnly t) = createPkRows t := rfl
  have huniq : createUniqueRows (multiFkOnly t) = createUniqueRows t := rfl
  rw [hname, hrows, hpk, huniq, createFkRows_no_singles t]

end DrizzleTurso

namespace DrizzleTurso

/-- C6: for every table pair, the recreate statement list ends with, in this
order: the CREATE TABLE of the shadow table under the suffixed temporary
name, rendered from `to`'s full column list with primary key, uniques and
multi-column foreign keys but no single-column inline REFERENCES clause
(expressed by the `multiFkOnly` equivalence); the INSERT copying exactly
`to`'s column name list from the current table; the DROP TABLE of the
current table; and the rename of the shadow table to the original name. -/
theorem c6_recreate_protocol_tail (tFrom tTo : Table) (r : String) :
    (∃ pre, recreateTableSql r tFrom tTo = pre ++
      (createTableSQL tTo false (some (tTo.name ++ ("__new__") ++ r)) ++
        copyDataSQL tFrom.name (tTo.name ++ ("__new__") ++ r)
          (tTo.columns.map (fun c => c.name)) ++
        removeTableSQL tFrom.name ++
        [renameShadowStmt (tTo.name ++ ("__new__") ++ r) tFrom.name])) ∧
    (∀ nmo : Option String,
      createTableSQL tTo false nmo = createTableSQL (multiFkOnly tTo) true nmo) := by
  constructor
  · refine ⟨recreateAddedColumnStmts tFrom tTo, ?_⟩
    unfold recreateTableSql
    dsimp only
    simp only [List.append_assoc]
  · intro nmo
    exact createTableSQL_no_single_refs tTo nmo

end DrizzleTurso

namespace DrizzleTurso

/-! ### Claim C4: recreation subsumes column changes (but not index changes) -/

theorem getColumnsToDelete_owner {dfrom dto : Definitions} :
    ∀ p ∈ getColumnsToDelete dfrom dto,
      ∃ tf, dfrom.getTable? p.1 = some tf ∧ p.2 ∈ tf.columns := by
  unfold getColumnsToDelete
  refine foldl_preserve
    (fun (cols : List (String × Column)) => ∀ p ∈ cols,
      ∃ tf, dfrom.getTable? p.1 = some tf ∧ p.2 ∈ tf.columns)
    _ dto.tables ?_ [] (fun p hp => absurd hp (List.not_mem_nil p))
  intro cols tt hcols
  cases hget : dfrom.getTable? tt.name with
  | none => exact hcols
  | some tFrom =>
    have hname : tFrom.name = tt.name := (getTable?_eq_some hget).2
    refine foldl_preserve_mem
      (fun cols => ∀ p ∈ cols, ∃ tf, dfrom.getTable? p.1 = some tf ∧ p.2 ∈ tf.columns)
      _ (getColumnsToDeleteFromTables tFrom tt) ?_ cols hcols
    intro s q hq hs p hp
    rcases mem_addSet.mp hp with h | rfl
    · exact hs p h
    · unfold getColumnsToDeleteFromTables at hq
      obtain ⟨c, hc, rfl⟩ := List.mem_map.mp hq
      exact ⟨tFrom, by rw [hname]; exact hget, (List.mem_filter.mp hc).1⟩

theorem recreateFold_cdel_subset {dfrom dto : Definitions} :
    ∀ {names : List String} {st bk : BookkeepingState},
      recreateFold dfrom dto names st = .ok bk →
      ∀ p ∈ bk.columnsToDelete, p ∈ st.columnsToDelete := by
  intro names
  induction names with
  | nil =>
    intro st bk h p hp
    unfold recreateFold at h
    rw [Except.ok.injEq] at h
    subst h
    exact hp
  | cons name rest ih =>
    intro st bk h p hp
    unfold recreateFold at h
    cases hf : dfrom.getTable? name with
    | none => rw [hf] at h; cases h
    | some tableFrom =>
      cases ht : dto.getTable? name with
      | none => rw [hf, ht] at h; cases h
      | some tableTo =>
        rw [hf, ht] at h
        have hsub := ih h p hp
        dsimp only at hsub
        revert hsub
        refine foldl_preserve
          (fun s => p ∈ s → p ∈ st.columnsToDelete) _ tableFrom.columns
          ?_ st.columnsToDelete (fun hmem => hmem)
        intro s c hsc hmem
        exact hsc (mem_of_mem_delSet hmem)

/-- After the recreate fold, no column-to-delete entry is owned by a
recreated table. -/
theorem recreateFold_clears_recreated {dfrom dto : Definitions} :
    ∀ {names : List String} {st bk : BookkeepingState},
      recreateFold dfrom dto names st = .ok bk →
      (∀ p ∈ st.columnsToDelete,
        ∃ tf, dfrom.getTable? p.1 = some tf ∧ p.2 ∈ tf.columns) →
      ∀ n ∈ names, ∀ c : Column, (n, c) ∉ bk.columnsToDelete := by
  intro names
  induction names with
  | nil =>
    intro st bk _ _ n hn
    cases hn
  | cons name rest ih =>
    intro st bk h hP n hn c hmem
    unfold recreateFold at h
    cases hf : dfrom.getTable? name with
    | none => rw [hf] at h; cases h
    | some tableFrom =>
      cases ht : dto.getTable? name with
      | none => rw [hf, ht] at h; cases h
      | some tableTo =>
        rw [hf, ht] at h
        have hfname : tableFrom.name = name := (getTable?_eq_some hf).2
        have hPstep : ∀ p ∈ tableFrom.columns.foldl
            (fun s c => delSet s (tableFrom.name, c)) st.columnsToDelete,
            ∃ tf, dfrom.getTable? p.1 = some tf ∧ p.2 ∈ tf.columns := by
          refine foldl_preserve
            (fun s => ∀ p ∈ s,
              ∃ tf, dfrom.getTable? p.1 = some tf ∧ p.2 ∈ tf.columns)
            _ tableFrom.columns ?_ st.columnsToDelete hP
          intro s cc hs p hp
          exact hs p (mem_of_mem_delSet hp)
        rcases List.mem_cons.mp hn with rfl | hrest
        · -- the processed table: all its delete entries are gone and the
          -- rest of the fold only shrinks the set
          have hsub := recreateFold_cdel_subset h (n, c) hmem
          dsimp only at hsub
          -- (n, c) survived the per-column delete fold; but P forces it to
          -- be a column of tableFrom, which that fold removed
          obtain ⟨tf, htf, hcmem⟩ := hPstep (n, c) hsub
          dsimp only at htf hcmem
          rw [hf] at htf
          rw [Option.some.injEq] at htf
          subst htf
          revert hsub
          have : (n, c) ∉ tableFrom.columns.foldl
              (fun s cc => delSet s (tableFrom.name, cc)) st.columnsToDelete := by
            refine foldl_reach
              (fun s => (n, c) ∉ s) _ tableFrom.columns c hcmem ?_ ?_
              st.columnsToDelete
            · intro s hin
              rw [hfname] at hin
              exact not_mem_delSet_self s (n, c) hin
            · intro s b hs hin
              exact hs (mem_of_mem_delSet hin)
          exact fun hsub => this hsub
        · exact ih h hPstep n hrest c hmem

end DrizzleTurso

namespace DrizzleTurso

/-- C4 (amended): for every table scheduled for recreation, no standalone
add-column or remove-column operation targets it — the recreate subsumes all
column changes.  (Index changes are not subsumed: the counterexample shows
standalone remove-index and add-index operations targeting a recreated
table.) -/
theorem c4_recreate_subsumes_column_ops (dfrom dto : Definitions)
    (options : Option DifferencesOptions) (rand : Nat → String)
    (s : PushSummary) (ops : List DiffOp) (n : String)
    (h : differencesT dfrom dto options rand = .ok (s, ops))
    (hn : s.recreatedTables.contains n = true) :
    ops.all (fun op =>
      !((op.isAddColumnOp || op.isRemoveColumnOp) && op.subjectTable = n)) = true := by
  have hb := differencesT_ok h
  obtain ⟨bk, hbk, hs, hshape⟩ := buildOps_op_shape hb
  have hcadd : bk.columnsToAdd = [] := recreateFold_cadd_nil hbk rfl
  have hnmem : n ∈ (getTablesToRecreate dfrom dto).tablesToRecreate := by
    rw [hs] at hn
    unfold mkSummary at hn
    exact contains_iff_mem.mp hn
  have hclear : ∀ c : Column, (n, c) ∉ bk.columnsToDelete :=
    recreateFold_clears_recreated hbk
      (fun p hp => getColumnsToDelete_owner p hp) n hnmem
  rw [List.all_eq_true]
  intro op hop
  rcases hshape op hop with h1 | h2 | h3 | h4 | h5 | h6 | h7 | h8 | h9
  · obtain ⟨p, _, rfl⟩ := h1; rfl
  · obtain ⟨tn, fk, lc, rest, _, _, _, rfl⟩ := h2; rfl
  · obtain ⟨t, _, rfl⟩ := h3; rfl
  · obtain ⟨t, _, rfl⟩ := h4; rfl
  · obtain ⟨p, hp, rfl⟩ := h5
    rw [hcadd] at hp
    cases hp
  · obtain ⟨p, hp, rfl⟩ := h6
    have hne : p.1 ≠ n := by
      intro hpn
      exact hclear p.2 (by rw [← hpn]; exact hp)
    simp [DiffOp.isAddColumnOp, DiffOp.isRemoveColumnOp, DiffOp.subjectTable, hne]
  · obtain ⟨name, oldT, newT, j, rfl, _, _, _⟩ := h7; rfl
  · obtain ⟨_, tn, fk, lc, rest2, _, rfl, _, _⟩ := h8; rfl
  · obtain ⟨p, _, rfl⟩ := h9; rfl

def c4colId : Column := ⟨"id", .integer, true, none, false⟩
def c4colA : Column := ⟨"name", .text, false, none, false⟩
def c4colB : Column := ⟨"name", .text, false, some ("x"), false⟩
def c4colExtra : Column := ⟨"extra", .text, false, none, false⟩
def c4idx : Index := ⟨"idx_users_name", false, ["name"]⟩
def c4from : Definitions :=
  ⟨[⟨"users", [c4colId, c4colA, c4colExtra], [c4colId], [], [], [c4idx]⟩]⟩
def c4to : Definitions :=
  ⟨[⟨"users", [c4colId, c4colB], [c4colId], [], [], [c4idx]⟩]⟩
def c4rand : Nat → String := fun _ => "dddddddddddddddd"

/-- Counterexample for C4 as stated: `users` is recreated (a default-value
edit) while its unchanged index is nevertheless emitted as a standalone
remove-index and add-index pair targeting `users`. -/
theorem c4_counterexample :
    (resultSummary (differencesT c4from c4to none c4rand)).recreatedTables.contains
      ("users") = true ∧
    ((resultOps (differencesT c4from c4to none c4rand)).filter
      (fun op => (op.isRemoveIndexOp || op.isAddIndexOp) &&
        op.subjectTable = ("users"))) ≠ [] := by
  exact ⟨by rfl, by decide⟩

/-- Witness for C4 (amended): in the same run, the dropped column `extra` of
the recreated `users` table produces no standalone column operation. -/
theorem c4_witness :
    (resultOps (differencesT c4from c4to none c4rand)).all
      (fun op => !((op.isAddColumnOp || op.isRemoveColumnOp) &&
        op.subjectTable = ("users"))) = true := by
  have h : differencesT c4from c4to none c4rand =
      .ok (resultSummary (differencesT c4from c4to none c4rand),
        resultOps (differencesT c4from c4to none c4rand)) := by rfl
  exact c4_recreate_subsumes_column_ops c4from c4to none c4rand _ _ ("users") h
    (by rfl)

end DrizzleTurso

namespace DrizzleTurso

/-! ### Claim C7: a table only in `from` -/

theorem getColumnsToDelete_owner_to {dfrom dto : Definitions} :
    ∀ p ∈ getColumnsToDelete dfrom dto, dto.hasTable p.1 = true := by
  unfold getColumnsToDelete
  refine foldl_preserve_mem
    (fun (cols : List (String × Column)) => ∀ p ∈ cols, dto.hasTable p.1 = true)
    _ dto.tables ?_ [] (fun p hp => absurd hp (List.not_mem_nil p))
  intro cols tt htt hcols
  cases hget : dfrom.getTable? tt.name with
  | none => exact hcols
  | some tFrom =>
    have hname : tFrom.name = tt.name := (getTable?_eq_some hget).2
    refine foldl_preserve_mem
      (fun (cols : List (String × Column)) => ∀ p ∈ cols, dto.hasTable p.1 = true)
      _ (getColumnsToDeleteFromTables tFrom tt) ?_ cols hcols
    intro s q hq hs p hp
    rcases mem_addSet.mp hp with hmem | rfl
    · exact hs p hmem
    · unfold getColumnsToDeleteFromTables at hq
      obtain ⟨c, _, rfl⟩ := List.mem_map.mp hq
      dsimp only
      rw [hname]
      exact hasTable_of_mem htt

theorem getIndexesToAdd_owner_to {dfrom dto : Definitions} :
    ∀ p ∈ getIndexesToAdd dfrom dto, dto.hasTable p.1 = true := by
  unfold getIndexesToAdd
  refine foldl_preserve_mem
    (fun (s : List (String × Index)) => ∀ p ∈ s, dto.hasTable p.1 = true)
    _ _ ?_ [] (fun p hp => absurd hp (List.not_mem_nil p))
  intro st q hq hst
  have hq' : q.2 ∈ allIndexes dto := by
    obtain ⟨r, hr, hrq⟩ := List.mem_map.mp (mem_mkMap hq)
    rw [← hrq]
    exact hr
  have hq2 : dto.hasTable q.2.1 = true := by
    obtain ⟨t, ht, hname, _⟩ := mem_allIndexes.mp (show (q.2.1, q.2.2) ∈ allIndexes dto from hq')
    rw [← hname]
    exact hasTable_of_mem ht
  intro p hp
  have hp' : p ∈ st ∨ p = q.2 := by
    revert hp
    cases mapGet? (mkMap ((allIndexes dfrom).map (fun oi => (oi.2.name, oi)))) q.1 with
    | none =>
      intro hp
      rcases mem_addSet.mp hp with hmem | rfl
      · exact Or.inl hmem
      · exact Or.inr rfl
    | some oif =>
      intro hp
      dsimp only at hp
      by_cases heq : indexesEqual oif.2 q.2.2 = true
      · rw [if_pos heq] at hp
        exact Or.inl hp
      · rw [if_neg heq] at hp
        rcases mem_addSet.mp hp with hmem | rfl
        · exact Or.inl hmem
        · exact Or.inr rfl
  rcases hp' with hmem | rfl
  · exact hst p hmem
  · exact hq2

theorem recreateFold_iadd_hasTable {dfrom dto : Definitions} :
    ∀ {names : List String} {st bk : BookkeepingState},
      recreateFold dfrom dto names st = .ok bk →
      (∀ p ∈ st.indexesToAdd, dto.hasTable p.1 = true) →
      ∀ p ∈ bk.indexesToAdd, dto.hasTable p.1 = true := by
  intro names
  induction names with
  | nil =>
    intro st bk h hst
    unfold recreateFold at h
    rw [Except.ok.injEq] at h
    subst h
    exact hst
  | cons name rest ih =>
    intro st bk h hst
    unfold recreateFold at h
    cases hf : dfrom.getTable? name with
    | none => rw [hf] at h; cases h
    | some tableFrom =>
      cases ht : dto.getTable? name with
      | none => rw [hf, ht] at h; cases h
      | some tableTo =>
        rw [hf, ht] at h
        refine ih h ?_
        dsimp only
        have htn : dto.hasTable tableTo.name = true :=
          hasTable_of_mem (getTable?_eq_some ht).1
        refine foldl_preserve
          (fun (s : List (String × Index)) => ∀ p ∈ s, dto.hasTable p.1 = true)
          _ tableTo.indexes ?_ st.indexesToAdd hst
        intro s i hs p hp
        rcases mem_addSet.mp hp with hmem | rfl
        · exact hs p hmem
        · exact htn

end DrizzleTurso

namespace DrizzleTurso

theorem dropWhile_append_of_all {α : Type} (p : α → Bool) :
    ∀ {l₁ l₂ : List α}, (∀ a ∈ l₁, p a = true) →
      (l₁ ++ l₂).dropWhile p = l₂.dropWhile p := by
  intro l₁
  induction l₁ with
  | nil => intro l₂ _; rfl
  | cons a rest ih =>
    intro l₂ h
    rw [List.cons_append, List.dropWhile_cons,
      if_pos (h a (List.mem_cons_self a rest))]
    exact ih (fun b hb => h b (List.mem_cons_of_mem a hb))

theorem all_dropWhile {α : Type} (p q : α → Bool) :
    ∀ {l : List α}, l.all q = true → (l.dropWhile p).all q = true := by
  intro l
  induction l with
  | nil => intro h; exact h
  | cons a rest ih =>
    intro h
    rw [List.all_cons, Bool.and_eq_true] at h
    rw [List.dropWhile_cons]
    split
    · exact ih h.2
    · rw [List.all_cons, Bool.and_eq_true]
      exact h

/-- In any successful run, every remove-foreign-key operation precedes every
create-table, remove-table and recreate-table operation: after the first
structure operation no remove-foreign-key operation appears. -/
theorem removeFk_before_structure {dfrom dto : Definitions} {cm : Bool}
    {rand : Nat → String} {s : PushSummary} {ops : List DiffOp}
    (h : buildOps dfrom dto cm rand = .ok (s, ops)) :
    (ops.dropWhile (fun op => !(op.isStructureOp))).all
      (fun op => !(op.isRemoveFkOp)) = true := by
  obtain ⟨bk, recOps, fkOps, hbk, hrec, hfk, hs, hops⟩ := buildOps_ok h
  subst hops
  simp only [List.append_assoc]
  rw [dropWhile_append_of_all _ ?hA]
  case hA =>
    intro a ha
    obtain ⟨p, _, rfl⟩ := mem_mkRemoveIndexOps.mp ha
    rfl
  rw [dropWhile_append_of_all _ ?hB]
  case hB =>
    intro a ha
    obtain ⟨tn, fk, lc, rest, _, _, _, rfl⟩ := mem_mkRemoveFkOps.mp ha
    rfl
  apply all_dropWhile
  rw [List.all_eq_true]
  intro op hop
  simp only [List.mem_append] at hop
  rcases hop with h3 | h4 | h5 | h6 | h7 | h8 | h9
  · obtain ⟨t, _, rfl⟩ := mem_mkCreateOps.mp h3; rfl
  · obtain ⟨t, _, rfl⟩ := mem_mkDropOps.mp h4; rfl
  · obtain ⟨p, _, rfl⟩ := mem_mkAddColOps.mp h5; rfl
  · obtain ⟨p, _, rfl⟩ := mem_mkRemColOps.mp h6; rfl
  · obtain ⟨name, oldT, newT, j, rfl, _, _, _⟩ := recreateOpsAux_mem hrec op h7; rfl
  · cases cm with
    | true =>
      rw [if_pos rfl, Except.ok.injEq] at hfk
      subst hfk
      cases h8
    | false =>
      rw [if_neg (by simp)] at hfk
      obtain ⟨tn, fk, lc, rest2, _, rfl, _, _⟩ := fkAddLoop_mem hfk op h8
      rfl
  · obtain ⟨p, _, rfl⟩ := mem_mkAddIdxOps.mp h9; rfl

end DrizzleTurso

namespace DrizzleTurso

/-- C7 (amended): for a table present only in `from`, the run emits exactly
one remove-table operation for it, and the only other operations that may
mention it are remove-index operations dropping its indexes (no column,
foreign-key, create, add-index or recreate operation mentions it). -/
theorem c7_remove_table_isolation (dfrom dto : Definitions)
    (options : Option DifferencesOptions) (rand : Nat → String)
    (s : PushSummary) (ops : List DiffOp) (n : String)
    (h : differencesT dfrom dto options rand = .ok (s, ops))
    (hnd : (dfrom.tables.map Table.name).Nodup)
    (hfrom : dfrom.hasTable n = true)
    (hto : dto.hasTable n = false) :
    ops.count (DiffOp.removeTable n) = 1 ∧
    ops.all (fun op => !(op.subjectTable = n) ||
      (op = DiffOp.removeTable n) || op.isRemoveIndexOp) = true := by
  have hb := differencesT_ok h
  obtain ⟨bk, recOps, fkOps, hbk, hrec, hfk, hs, hops⟩ := buildOps_ok hb
  have hcadd : bk.columnsToAdd = [] := recreateFold_cadd_nil hbk rfl
  have hinv := recreateState_hasTable dfrom dto
  have hne_of_to : ∀ m : String, dto.hasTable m = true → m ≠ n := by
    intro m hm hmn
    rw [hmn, hto] at hm
    cases hm
  constructor
  · -- exactly one remove-table operation
    subst hops
    repeat rw [List.count_append]
    have hz : ∀ (l : List DiffOp), (DiffOp.removeTable n) ∉ l →
        l.count (DiffOp.removeTable n) = 0 := by
      intro l hl
      exact List.count_eq_zero.mpr hl
    rw [hz (mkRemoveIndexOps bk.indexesToRemove) ?z1,
      hz (mkRemoveFkOps dfrom (getTablesToRecreate dfrom dto).tablesToDropReferences) ?z2,
      hz (mkCreateOps (getTablesToAdd dfrom dto)) ?z3,
      hz (mkAddColOps bk.columnsToAdd) ?z4,
      hz (mkRemColOps bk.columnsToDelete) ?z5,
      hz recOps ?z6, hz fkOps ?z7, hz (mkAddIdxOps bk.indexesToAdd) ?z8]
    case z1 =>
      intro hmem
      obtain ⟨p, _, heq⟩ := mem_mkRemoveIndexOps.mp hmem
      cases heq
    case z2 =>
      intro hmem
      obtain ⟨tn, fk, lc, rest, _, _, _, heq⟩ := mem_mkRemoveFkOps.mp hmem
      cases heq
    case z3 =>
      intro hmem
      obtain ⟨t, _, heq⟩ := mem_mkCreateOps.mp hmem
      cases heq
    case z4 =>
      intro hmem
      obtain ⟨p, _, heq⟩ := mem_mkAddColOps.mp hmem
      cases heq
    case z5 =>
      intro hmem
      obtain ⟨p, _, heq⟩ := mem_mkRemColOps.mp hmem
      cases heq
    case z6 =>
      intro hmem
      obtain ⟨name, oldT, newT, j, heq, _, _, _⟩ := recreateOpsAux_mem hrec _ hmem
      cases heq
    case z7 =>
      intro hmem
      cases hcm : (if (options.map DifferencesOptions.creationMode).getD false then
          Except.ok [] else
        fkAddLoop dto (getTablesToAdd dfrom dto)
          (getTablesToRecreate dfrom dto).tablesToDropReferences
          (allSingleColumnForeignKeys dto) : Except String (List DiffOp)) with
      | error e => rw [hcm] at hfk; cases hfk
      | ok l =>
        rw [hcm] at hfk
        rw [Except.ok.injEq] at hfk
        subst hfk
        cases hcmb : (options.map DifferencesOptions.creationMode).getD false with
        | true =>
          rw [hcmb] at hcm
          rw [if_pos rfl, Except.ok.injEq] at hcm
          subst hcm
          cases hmem
        | false =>
          rw [hcmb] at hcm
          rw [if_neg (by simp)] at hcm
          obtain ⟨tn, fk, lc, rest2, _, heq, _, _⟩ := fkAddLoop_mem hcm _ hmem
          cases heq
    case z8 =>
      intro hmem
      obtain ⟨p, _, heq⟩ := mem_mkAddIdxOps.mp hmem
      cases heq
    -- remaining: count in the drop segment is one
    simp only [Nat.zero_add, Nat.add_zero]
    unfold mkDropOps
    have : (getTablesToDelete dfrom dto).map (fun t => DiffOp.removeTable t.name) =
        ((getTablesToDelete dfrom dto).map Table.name).map DiffOp.removeTable := by
      rw [List.map_map]
      rfl
    rw [this]
    rw [List.count_map_of_injective _ DiffOp.removeTable
      (fun a b hab => by cases hab; rfl) n]
    obtain ⟨t0, ht0, ht0n⟩ := hasTable_iff.mp hfrom
    have ht0mem : t0 ∈ getTablesToDelete dfrom dto := by
      unfold getTablesToDelete
      refine List.mem_filter.mpr ⟨ht0, ?_⟩
      rw [ht0n, hto]
      rfl
    refine List.count_eq_one_of_mem ?_ ?_
    · exact ((List.filter_sublist dfrom.tables).map Table.name).nodup hnd
    · rw [← ht0n]
      exact List.mem_map_of_mem Table.name ht0mem
  · -- no other operation category mentions the table
    rw [List.all_eq_true]
    intro op hop
    rw [hops] at hop
    simp only [List.mem_append] at hop
    rcases hop with ((((((((h1 | h2) | h3) | h4) | h5) | h6) | h7) | h8) | h9)
    · obtain ⟨p, _, rfl⟩ := mem_mkRemoveIndexOps.mp h1
      simp [DiffOp.isRemoveIndexOp]
    · obtain ⟨tn, fk, lc, rest, _, hdr, _, rfl⟩ := mem_mkRemoveFkOps.mp h2
      have : tn ≠ n := hne_of_to tn (hinv.2 tn (contains_iff_mem.mp hdr))
      simp [DiffOp.subjectTable, this]
    · obtain ⟨t, hmem, rfl⟩ := mem_mkCreateOps.mp h3
      have ht : t ∈ dto.tables := by
        unfold getTablesToAdd at hmem
        exact (List.mem_filter.mp hmem).1
      have : t.name ≠ n := hne_of_to t.name (hasTable_of_mem ht)
      simp [DiffOp.subjectTable, this]
    · obtain ⟨t, hmem, rfl⟩ := mem_mkDropOps.mp h4
      by_cases htn : t.name = n
      · rw [htn]
        simp
      · simp [DiffOp.subjectTable, htn]
    · obtain ⟨p, hp, rfl⟩ := mem_mkAddColOps.mp h5
      rw [hcadd] at hp
      cases hp
    · obtain ⟨p, hp, rfl⟩ := mem_mkRemColOps.mp h6
      have hp0 := recreateFold_cdel_subset hbk p hp
      have : p.1 ≠ n := hne_of_to p.1 (getColumnsToDelete_owner_to p hp0)
      simp [DiffOp.subjectTable, this]
    · obtain ⟨name, oldT, newT, j, rfl, hmem, _, _⟩ := recreateOpsAux_mem hrec op h7
      have : name ≠ n := hne_of_to name (hinv.1 name hmem).1
      simp [DiffOp.subjectTable, this]
    · have hfkops : ∀ op2 ∈ fkOps, ∃ (tn : String) (fk : ForeignKey)
          (lc : Column) (rest2 : List Column),
          (tn, fk) ∈ allSingleColumnForeignKeys dto ∧
          op2 = DiffOp.addForeignKey tn lc fk ∧
          fk.localColumns = lc :: rest2 := by
        intro op2 hop2
        cases hcmb : (options.map DifferencesOptions.creationMode).getD false with
        | true =>
          rw [hcmb, if_pos rfl, Except.ok.injEq] at hfk
          subst hfk
          cases hop2
        | false =>
          rw [hcmb, if_neg (by simp)] at hfk
          obtain ⟨tn, fk, lc, rest2, e1, e2, e3, _⟩ := fkAddLoop_mem hfk op2 hop2
          exact ⟨tn, fk, lc, rest2, e1, e2, e3⟩
      obtain ⟨tn, fk, lc, rest2, hmem, rfl, _⟩ := hfkops op h8
      obtain ⟨t, ht, htn, _, _⟩ := mem_allSingleColumnForeignKeys.mp hmem
      have : tn ≠ n := by
        rw [← htn]
        exact hne_of_to t.name (hasTable_of_mem ht)
      simp [DiffOp.subjectTable, this]
    · obtain ⟨p, hp, rfl⟩ := mem_mkAddIdxOps.mp h9
      have : p.1 ≠ n := hne_of_to p.1
        (recreateFold_iadd_hasTable hbk
          (fun q hq => getIndexesToAdd_owner_to q hq) p hp)
      simp [DiffOp.subjectTable, this]

end DrizzleTurso

namespace DrizzleTurso

def c7colId : Column := ⟨"id", .integer, true, none, false⟩
def c7idx : Index := ⟨"idx_users_id", false, ["id"]⟩
def c7from : Definitions := ⟨[⟨"users", [c7colId], [c7colId], [], [], [c7idx]⟩]⟩
def c7rand : Nat → String := fun _ => "eeeeeeeeeeeeeeee"

/-- Counterexample for C7 as stated: the table `users` exists only in `from`
and carries an index; besides the single remove-table operation, a
remove-index operation for its index is emitted, so the table is not
excluded from every other operation category. -/
theorem c7_counterexample :
    (resultOps (differencesT c7from ⟨[]⟩ none c7rand)).count
      (DiffOp.removeTable ("users")) = 1 ∧
    ((resultOps (differencesT c7from ⟨[]⟩ none c7rand)).filter
      (fun op => op.subjectTable = ("users") &&
        !(op = DiffOp.removeTable ("users")))) ≠ [] := by
  exact ⟨by rfl, by decide⟩

/-- Witness for C7 (amended) at the same input: exactly one remove-table
operation, and every other operation mentioning `users` is a remove-index. -/
theorem c7_witness :
    (resultOps (differencesT c7from ⟨[]⟩ none c7rand)).count
      (DiffOp.removeTable ("users")) = 1 ∧
    (resultOps (differencesT c7from ⟨[]⟩ none c7rand)).all
      (fun op => !(op.subjectTable = ("users")) ||
        (op = DiffOp.removeTable ("users")) || op.isRemoveIndexOp) = true :=
  c7_remove_table_isolation c7from ⟨[]⟩ none c7rand
    (resultSummary (differencesT c7from ⟨[]⟩ none c7rand))
    (resultOps (differencesT c7from ⟨[]⟩ none c7rand)) ("users")
    (by rfl) (by decide) (by rfl) (by rfl)

end DrizzleTurso

namespace DrizzleTurso

/-! ### Claim C3: foreign-key drop ahead of structural rebuilds -/

/-- Membership in a reference-graph entry under the growth step used by
`tablesReferences`. -/
theorem refMem_mapSet_self {g : List (String × List String)} (k : String)
    (y : String) : y ∈ (mapGet? (mapSet g k (addSet ((mapGet? g k).getD []) y)) k).getD [] := by
  rw [mapGet?_mapSet_self]
  exact mem_addSet_self _ _

theorem refMem_mapSet_mono {g : List (String × List String)} {k x : String}
    (hx : x ∈ (mapGet? g k).getD []) (kb : String) (y : String) :
    x ∈ (mapGet? (mapSet g kb (addSet ((mapGet? g kb).getD []) y)) k).getD [] := by
  by_cases hkk : k = kb
  · subst hkk
    rw [mapGet?_mapSet_self]
    exact mem_addSet_of_mem _ hx
  · rw [mapGet?_mapSet_ne _ _ hkk]
    exact hx

/-- Every foreign key of a `from` table contributes its owner to the
reference-graph entry of its target. -/
theorem mem_tablesReferences {dfrom : Definitions} {tf : Table}
    {fk : ForeignKey} (htf : tf ∈ dfrom.tables) (hfk : fk ∈ tf.foreignKeys) :
    tf.name ∈ (mapGet? (tablesReferences dfrom) fk.foreignTableName).getD [] := by
  unfold tablesReferences
  refine foldl_reach
    (fun (g : List (String × List String)) =>
      tf.name ∈ (mapGet? g fk.foreignTableName).getD [])
    _ dfrom.tables tf htf ?_ ?_ []
  · intro g
    refine foldl_reach
      (fun (g : List (String × List String)) =>
        tf.name ∈ (mapGet? g fk.foreignTableName).getD [])
      _ tf.foreignKeys fk hfk ?_ ?_ g
    · intro g2
      exact refMem_mapSet_self fk.foreignTableName tf.name
    · intro g2 fk2 hmem
      exact refMem_mapSet_mono hmem fk2.foreignTableName tf.name
  · intro g t2 hmem
    refine foldl_preserve
      (fun (g : List (String × List String)) =>
        tf.name ∈ (mapGet? g fk.foreignTableName).getD [])
      _ t2.foreignKeys ?_ g hmem
    intro g2 fk2 hmem2
    exact refMem_mapSet_mono hmem2 fk2.foreignTableName t2.name

theorem recreateStep_drop_mono (dto : Definitions)
    (references : List (String × List String)) (addNames : List String)
    (st : RecreateState) (tFrom : Table) {x : String}
    (h : x ∈ st.tablesToDropReferences) :
    x ∈ (recreateStep dto references addNames st tFrom).tablesToDropReferences := by
  unfold recreateStep
  cases dto.getTable? tFrom.name with
  | none => exact h
  | some tTo =>
    dsimp only
    have hcasc : ∀ drops, x ∈ drops →
        x ∈ cascadeDropRefs dto references drops tFrom := by
      intro drops hd
      unfold cascadeDropRefs
      refine foldl_preserve (fun s => x ∈ s) _ _ ?_ drops hd
      intro s tn hs
      split
      · exact mem_addSet_of_mem _ hs
      · exact hs
    split
    · refine mem_addSet_of_mem _ ?_
      split
      · exact hcasc _ h
      · exact h
    · split
      · exact hcasc _ h
      · exact h

/-- When a structural trigger fires for `tFrom`, every `to`-resident table in
its reference-graph entry lands in the drop-references set. -/
theorem recreateStep_mem_drop_of_trigger (dto : Definitions)
    (references : List (String × List String)) (addNames : List String)
    (st : RecreateState) (tFrom tTo : Table) (T : String)
    (hto : dto.getTable? tFrom.name = some tTo)
    (htrig : structuralTrigger addNames tFrom tTo = true)
    (hTin : T ∈ (mapGet? references tFrom.name).getD [])
    (hThas : dto.hasTable T = true) :
    T ∈ (recreateStep dto references addNames st tFrom).tablesToDropReferences := by
  unfold recreateStep
  rw [hto]
  dsimp only
  have hT : ∀ drops, T ∈ cascadeDropRefs dto references drops tFrom := by
    intro drops
    unfold cascadeDropRefs
    refine foldl_reach (fun s => T ∈ s) _ _ T hTin ?_ ?_ drops
    · intro s
      rw [if_pos hThas]
      exact mem_addSet_self _ _
    · intro s tn hs
      split
      · exact mem_addSet_of_mem _ hs
      · exact hs
  rw [if_pos htrig]
  split
  · exact mem_addSet_of_mem _ (hT _)
  · exact hT _

/-- The full cascade: the drop-references set of the classification contains
every `to`-resident table referencing a structurally triggered table. -/
theorem mem_dropReferences_of_trigger {dfrom dto : Definitions}
    {tf uf ut : Table} {fk : ForeignKey}
    (htf : tf ∈ dfrom.tables) (hfk : fk ∈ tf.foreignKeys)
    (hufmem : uf ∈ dfrom.tables)
    (hufname : uf.name = fk.foreignTableName)
    (hut : dto.getTable? uf.name = some ut)
    (htrig : structuralTrigger (addedColumnOwnerNames dfrom dto) uf ut = true)
    (htto : dto.hasTable tf.name = true) :
    tf.name ∈ (getTablesToRecreate dfrom dto).tablesToDropReferences := by
  unfold getTablesToRecreate
  refine foldl_reach
    (fun (st : RecreateState) => tf.name ∈ st.tablesToDropReferences)
    _ dfrom.tables uf hufmem ?_ ?_ (⟨[], [], []⟩ : RecreateState)
  · intro st
    refine recreateStep_mem_drop_of_trigger dto _ _ st uf ut tf.name hut htrig
      ?_ htto
    rw [hufname]
    exact mem_tablesReferences htf hfk
  · intro st b hmem
    exact recreateStep_drop_mono dto _ _ st b hmem

end DrizzleTurso

namespace DrizzleTurso

/-- C3 (amended): whenever a single-column foreign key of a `from` table
`tf` targets a table that is present in both snapshots and structurally
triggered for recreation, and `tf` itself is still present in `to`, a
successful run emits the remove-foreign-key operation for that key, and
every remove-foreign-key operation precedes every structure
(create/drop/recreate) operation.  Referenced tables present only in
`from` do not trigger the drop (see the counterexample). -/
theorem c3_cascade_fk_drop (dfrom dto : Definitions)
    (options : Option DifferencesOptions) (rand : Nat → String)
    (s : PushSummary) (ops : List DiffOp)
    (tf uf ut : Table) (fk : ForeignKey) (lc : Column)
    (h : differencesT dfrom dto options rand = .ok (s, ops))
    (htf : tf ∈ dfrom.tables) (hfk : fk ∈ tf.foreignKeys)
    (hlc : fk.localColumns = [lc])
    (hufmem : uf ∈ dfrom.tables)
    (hufname : uf.name = fk.foreignTableName)
    (hut : dto.getTable? uf.name = some ut)
    (htrig : structuralTrigger (addedColumnOwnerNames dfrom dto) uf ut = true)
    (htto : dto.hasTable tf.name = true) :
    DiffOp.removeForeignKey tf.name lc ∈ ops ∧
    (ops.dropWhile (fun op => !(op.isStructureOp))).all
      (fun op => !(op.isRemoveFkOp)) = true := by
  have hb := differencesT_ok h
  refine ⟨?_, removeFk_before_structure hb⟩
  obtain ⟨bk, recOps, fkOps, hbk, hrec, hfkA, hs, hops⟩ := buildOps_ok hb
  have hdrop : tf.name ∈ (getTablesToRecreate dfrom dto).tablesToDropReferences :=
    mem_dropReferences_of_trigger htf hfk hufmem hufname hut htrig htto
  have hmemfk : DiffOp.removeForeignKey tf.name lc ∈
      mkRemoveFkOps dfrom (getTablesToRecreate dfrom dto).tablesToDropReferences := by
    refine mem_mkRemoveFkOps.mpr ⟨tf.name, fk, lc, [], ?_, ?_, hlc, rfl⟩
    · exact mem_allSingleColumnForeignKeys.mpr ⟨tf, htf, rfl, hfk, by rw [hlc]; rfl⟩
    · exact contains_iff_mem.mpr hdrop
  subst hops
  simp only [List.mem_append]
  exact Or.inl (Or.inl (Or.inl (Or.inl (Or.inl (Or.inl (Or.inl (Or.inr hmemfk)))))))

def c3colId : Column := ⟨"id", .integer, true, none, false⟩
def c3colUserId : Column := ⟨"user_id", .integer, true, none, false⟩
def c3fk : ForeignKey := ⟨"users", ["id"], [c3colUserId], .noAction, .noAction⟩
def c3posts : Table := ⟨"posts", [c3colId, c3colUserId], [c3colId], [c3fk], [], []⟩
def c3usersFrom : Table := ⟨"users", [c3colId], [c3colId], [], [], []⟩
def c3usersTo : Table := ⟨"users", [c3colId], [], [], [], []⟩
def c3from : Definitions := ⟨[c3usersFrom, c3posts]⟩
def c3to : Definitions := ⟨[c3usersTo, c3posts]⟩
def c3rand : Nat → String := fun _ => "cccccccccccccccc"

/-- Counterexample for C3 as stated: `posts` holds a single-column foreign
key to `users`, and `users` is scheduled for removal (present only in
`from`), yet the successful run emits no remove-foreign-key operation at
all: the recreation loop skips tables absent from `to`, so removal never
populates the drop-references set. -/
theorem c3_counterexample :
    (resultSummary (differencesT c3from ⟨[]⟩ none c3rand)).removedTables.contains
      ("users") = true ∧
    (resultOps (differencesT c3from ⟨[]⟩ none c3rand)).all
      (fun op => !(op.isRemoveFkOp)) = true ∧
    differencesT c3from ⟨[]⟩ none c3rand =
      .ok (resultSummary (differencesT c3from ⟨[]⟩ none c3rand),
        resultOps (differencesT c3from ⟨[]⟩ none c3rand)) := by
  exact ⟨by rfl, by decide, by rfl⟩

/-- Witness for C3 (amended): dropping the primary key of `users` in `to`
structurally triggers its recreation, so the run drops the foreign key of
`posts` pointing at it, ahead of every structure operation. -/
theorem c3_witness :
    DiffOp.removeForeignKey ("posts") c3colUserId ∈
      resultOps (differencesT c3from c3to none c3rand) ∧
    ((resultOps (differencesT c3from c3to none c3rand)).dropWhile
      (fun op => !(op.isStructureOp))).all (fun op => !(op.isRemoveFkOp)) = true :=
  c3_cascade_fk_drop c3from c3to none c3rand
    (resultSummary (differencesT c3from c3to none c3rand))
    (resultOps (differencesT c3from c3to none c3rand))
    c3posts c3usersFrom c3usersTo c3fk c3colUserId
    (by rfl) (by decide) (by decide) (by rfl) (by decide) (by rfl) (by rfl)
    (by decide) (by rfl)

end DrizzleTurso

namespace DrizzleTurso

/-! ### Claim C1: structural equality of snapshots

The compared attributes of the diff are: table names; column names, types,
notNull flags and default values; primary-key, unique and foreign-key column
names; foreign target tables and actions; index names, uniqueness flags and
column lists.  `autoIncrement` is read only when rendering SQL, never when
comparing, so structural equality of two snapshots is equality after erasing
it. -/

/-- Erase the only column attribute the diff never compares. -/
def eraseCol (c : Column) : Column := { c with autoIncrement := false }

def eraseFk (fk : ForeignKey) : ForeignKey :=
  { fk with localColumns := fk.localColumns.map eraseCol }

def eraseTable (t : Table) : Table :=
  { t with
    columns := t.columns.map eraseCol
    primaryKey := t.primaryKey.map eraseCol
    foreignKeys := t.foreignKeys.map eraseFk }

def eraseDefs (d : Definitions) : Definitions := ⟨d.tables.map eraseTable⟩

/-- `List.foldl` with a pointwise-identity step is the identity. -/
theorem foldl_id {α β : Type} (f : β → α → β) (l : List α)
    (h : ∀ b, ∀ a ∈ l, f b a = b) (b : β) : l.foldl f b = b := by
  induction l generalizing b with
  | nil => rfl
  | cons x xs ih =>
    rw [List.foldl_cons, h b x (List.mem_cons_self x xs)]
    exact ih (fun c a ha => h c a (List.mem_cons_of_mem x ha)) b

/-- `find?` by a key that an erasure preserves commutes with the erasure. -/
theorem find?_name_congr {α : Type} (e : α → α) (f : α → String)
    (hef : ∀ a, f (e a) = f a) {l1 l2 : List α}
    (h : l1.map e = l2.map e) (n : String) :
    Option.map e (l1.find? (fun x => f x = n)) =
      Option.map e (l2.find? (fun x => f x = n)) := by
  induction l1 generalizing l2 with
  | nil =>
    cases l2 with
    | nil => rfl
    | cons b bs => exact absurd h (by simp)
  | cons a as ih =>
    cases l2 with
    | nil => exact absurd h (by simp)
    | cons b bs =>
      rw [List.map_cons, List.map_cons] at h
      have h1 : e a = e b := (List.cons.injEq _ _ _ _ ▸ h).1
      have h2 : as.map e = bs.map e := (List.cons.injEq _ _ _ _ ▸ h).2
      have hn : f a = f b := by rw [← hef a, ← hef b, h1]
      by_cases hfa : f a = n
      · rw [List.find?_cons_of_pos _ (by simp [hfa]),
          List.find?_cons_of_pos _ (by simp [← hn, hfa])]
        simp [h1]
      · rw [List.find?_cons_of_neg _ (by simp [hfa]),
          List.find?_cons_of_neg _ (by simp [← hn, hfa])]
        exact ih h2

/-- With duplicate-free keys, `find?` by an element's own key returns it. -/
theorem find?_self_of_key_nodup {α : Type} (f : α → String) {l : List α} {t : α}
    (hnd : (l.map f).Nodup) (ht : t ∈ l) :
    l.find? (fun x => f x = f t) = some t := by
  induction l with
  | nil => cases ht
  | cons a as ih =>
    rw [List.map_cons, List.nodup_cons] at hnd
    cases ht with
    | head => exact List.find?_cons_of_pos _ (by simp)
    | tail _ hmem =>
      have hne : ¬(f a = f t) := by
        intro he
        exact hnd.1 (he ▸ List.mem_map_of_mem f hmem)
      rw [List.find?_cons_of_neg _ (by simp [hne])]
      exact ih hnd.2 hmem

theorem isSome_of_map_congr {α : Type} {e : α → α} {o1 o2 : Option α}
    (h : o1.map e = o2.map e) : o1.isSome = o2.isSome := by
  cases o1 <;> cases o2
  · rfl
  · exact absurd h (by simp)
  · exact absurd h (by simp)
  · rfl

theorem getTable?_erase {dfrom dto : Definitions}
    (hE : eraseDefs dfrom = eraseDefs dto) (n : String) :
    Option.map eraseTable (dfrom.getTable? n) =
      Option.map eraseTable (dto.getTable? n) := by
  have h : dfrom.tables.map eraseTable = dto.tables.map eraseTable :=
    congrArg Definitions.tables hE
  exact find?_name_congr eraseTable Table.name (fun a => rfl) h n

theorem hasTable_erase {dfrom dto : Definitions}
    (hE : eraseDefs dfrom = eraseDefs dto) (n : String) :
    dfrom.hasTable n = dto.hasTable n :=
  isSome_of_map_congr (getTable?_erase hE n)

theorem getColumn?_erase {tf tt : Table} (hET : eraseTable tf = eraseTable tt)
    (n : String) :
    Option.map eraseCol (tf.getColumn? n) = Option.map eraseCol (tt.getColumn? n) := by
  have h : tf.columns.map eraseCol = tt.columns.map eraseCol :=
    congrArg Table.columns hET
  exact find?_name_congr eraseCol Column.name (fun a => rfl) h n

theorem hasColumn_erase {tf tt : Table} (hET : eraseTable tf = eraseTable tt)
    (n : String) : tf.hasColumn n = tt.hasColumn n :=
  isSome_of_map_congr (getColumn?_erase hET n)

/-- With duplicate-free table names, looking a member table up by its own
name returns it. -/
theorem getTable?_self {d : Definitions} {t : Table}
    (hnd : (d.tables.map Table.name).Nodup) (ht : t ∈ d.tables) :
    d.getTable? t.name = some t :=
  find?_self_of_key_nodup Table.name hnd ht

theorem getColumn?_self {t : Table} {c : Column}
    (hnd : (t.columns.map Column.name).Nodup) (hc : c ∈ t.columns) :
    t.getColumn? c.name = some c :=
  find?_self_of_key_nodup Column.name hnd hc

end DrizzleTurso

namespace DrizzleTurso

/-! ### C1 component emptiness -/

theorem getTablesToAdd_erase_nil {dfrom dto : Definitions}
    (hE : eraseDefs dfrom = eraseDefs dto) : getTablesToAdd dfrom dto = [] := by
  unfold getTablesToAdd
  rw [List.filter_eq_nil_iff]
  intro t ht
  rw [hasTable_erase hE t.name, hasTable_of_mem ht]
  simp

theorem getTablesToDelete_erase_nil {dfrom dto : Definitions}
    (hE : eraseDefs dfrom = eraseDefs dto) : getTablesToDelete dfrom dto = [] := by
  unfold getTablesToDelete
  rw [List.filter_eq_nil_iff]
  intro t ht
  rw [← hasTable_erase hE t.name, hasTable_of_mem ht]
  simp

theorem getColumnsToAddFromTables_erase_nil {tf tt : Table}
    (hET : eraseTable tf = eraseTable tt) :
    getColumnsToAddFromTables tf tt = [] := by
  unfold getColumnsToAddFromTables
  rw [List.filter_eq_nil_iff.mpr, List.map_nil]
  intro c hc
  rw [hasColumn_erase hET c.name, hasColumn_of_mem hc]
  simp

theorem getColumnsToDeleteFromTables_erase_nil {tf tt : Table}
    (hET : eraseTable tf = eraseTable tt) :
    getColumnsToDeleteFromTables tf tt = [] := by
  unfold getColumnsToDeleteFromTables
  rw [List.filter_eq_nil_iff.mpr, List.map_nil]
  intro c hc
  rw [← hasColumn_erase hET c.name, hasColumn_of_mem hc]
  simp

/-- For a `to` table, the `from` table found by its name erases to the same
table. -/
theorem getTable?_from_of_to {dfrom dto : Definitions}
    (hE : eraseDefs dfrom = eraseDefs dto)
    (hndt : (dto.tables.map Table.name).Nodup) {tTo : Table}
    (ht : tTo ∈ dto.tables) :
    ∃ tFrom, dfrom.getTable? tTo.name = some tFrom ∧
      eraseTable tFrom = eraseTable tTo := by
  have h := getTable?_erase hE tTo.name
  rw [getTable?_self hndt ht] at h
  cases hf : dfrom.getTable? tTo.name with
  | none => rw [hf] at h; exact absurd h (by simp)
  | some tFrom =>
    rw [hf] at h
    exact ⟨tFrom, rfl, by simpa using h⟩

/-- For a `from` table, the `to` table found by its name erases to the same
table. -/
theorem getTable?_to_of_from {dfrom dto : Definitions}
    (hE : eraseDefs dfrom = eraseDefs dto)
    (hndf : (dfrom.tables.map Table.name).Nodup) {tFrom : Table}
    (ht : tFrom ∈ dfrom.tables) :
    ∃ tTo, dto.getTable? tFrom.name = some tTo ∧
      eraseTable tFrom = eraseTable tTo := by
  have h := getTable?_erase hE tFrom.name
  rw [getTable?_self hndf ht] at h
  cases hf : dto.getTable? tFrom.name with
  | none => rw [hf] at h; exact absurd h (by simp)
  | some tTo =>
    rw [hf] at h
    exact ⟨tTo, rfl, by simpa using h⟩

theorem getColumnsToAdd_erase_nil {dfrom dto : Definitions}
    (hE : eraseDefs dfrom = eraseDefs dto)
    (hndt : (dto.tables.map Table.name).Nodup) :
    getColumnsToAdd dfrom dto = [] := by
  unfold getColumnsToAdd
  refine foldl_id _ _ ?_ []
  intro cols tTo ht
  obtain ⟨tFrom, hf, hET⟩ := getTable?_from_of_to hE hndt ht
  rw [hf]
  dsimp only
  rw [getColumnsToAddFromTables_erase_nil hET]
  rfl

theorem getColumnsToDelete_erase_nil {dfrom dto : Definitions}
    (hE : eraseDefs dfrom = eraseDefs dto)
    (hndt : (dto.tables.map Table.name).Nodup) :
    getColumnsToDelete dfrom dto = [] := by
  unfold getColumnsToDelete
  refine foldl_id _ _ ?_ []
  intro cols tTo ht
  obtain ⟨tFrom, hf, hET⟩ := getTable?_from_of_to hE hndt ht
  rw [hf]
  dsimp only
  rw [getColumnsToDeleteFromTables_erase_nil hET]
  rfl

theorem addedColumnOwnerNames_erase_nil {dfrom dto : Definitions}
    (hE : eraseDefs dfrom = eraseDefs dto)
    (hndt : (dto.tables.map Table.name).Nodup) :
    addedColumnOwnerNames dfrom dto = [] := by
  unfold addedColumnOwnerNames
  rw [getColumnsToAdd_erase_nil hE hndt]
  rfl

end DrizzleTurso

namespace DrizzleTurso

/-! ### C1: index pools -/

theorem indexesEqual_refl (i : Index) : indexesEqual i i = true := by
  simp [indexesEqual]

theorem allIndexes_erase {dfrom dto : Definitions}
    (hE : eraseDefs dfrom = eraseDefs dto) : allIndexes dfrom = allIndexes dto := by
  have h : dfrom.tables.map eraseTable = dto.tables.map eraseTable :=
    congrArg Definitions.tables hE
  unfold allIndexes
  have hcomp : ∀ (l : List Table),
      l.map (fun t => t.indexes.map (fun i => (t.name, i))) =
        (l.map eraseTable).map (fun t => t.indexes.map (fun i => (t.name, i))) := by
    intro l
    rw [List.map_map]
    exact (List.map_congr_left (fun a _ => rfl)).symm
  rw [hcomp dfrom.tables, hcomp dto.tables, h]

theorem getIndexesToAdd_erase_nil {dfrom dto : Definitions}
    (hE : eraseDefs dfrom = eraseDefs dto) : getIndexesToAdd dfrom dto = [] := by
  unfold getIndexesToAdd
  rw [allIndexes_erase hE]
  refine foldl_id _ _ ?_ []
  intro s p hp
  rw [mapGet?_of_mem_nodupKeys (mkMap_keys_nodup _) hp]
  dsimp only
  rw [if_pos (indexesEqual_refl p.2.2)]

theorem getIndexesToRemove_erase_nil {dfrom dto : Definitions}
    (hE : eraseDefs dfrom = eraseDefs dto) : getIndexesToRemove dfrom dto = [] := by
  unfold getIndexesToRemove
  rw [allIndexes_erase hE]
  refine foldl_id _ _ ?_ []
  intro s p hp
  rw [mapGet?_of_mem_nodupKeys (mkMap_keys_nodup _) hp]
  dsimp only
  rw [if_pos (indexesEqual_refl p.2.2)]

end DrizzleTurso

namespace DrizzleTurso

/-! ### C1: structural comparisons under erasure -/

theorem name_map_eraseCol (l : List Column) :
    (l.map eraseCol).map Column.name = l.map Column.name := by
  rw [List.map_map]
  exact List.map_congr_left (fun a _ => rfl)

theorem stringifyColumnsList_erase {l1 l2 : List Column}
    (h : l1.map eraseCol = l2.map eraseCol) :
    stringifyColumnsList l1 = stringifyColumnsList l2 := by
  unfold stringifyColumnsList
  have hn : l1.map Column.name = l2.map Column.name := by
    rw [← name_map_eraseCol l1, ← name_map_eraseCol l2, h]
  rw [hn]

theorem stringifyForeignKey_eraseFk (fk : ForeignKey) :
    stringifyForeignKey (eraseFk fk) = stringifyForeignKey fk := by
  unfold stringifyForeignKey
  have h0 : stringifyColumnsList (fk.localColumns.map eraseCol) =
      stringifyColumnsList fk.localColumns :=
    stringifyColumnsList_erase
      (by rw [List.map_map]; exact List.map_congr_left (fun a _ => rfl))
  have h : stringifyColumnsList (eraseFk fk).localColumns =
      stringifyColumnsList fk.localColumns := h0
  rw [h]
  rfl

theorem stringifyForeignKeys_erase {l1 l2 : List ForeignKey}
    (h : l1.map eraseFk = l2.map eraseFk) :
    stringifyForeignKeys l1 = stringifyForeignKeys l2 := by
  unfold stringifyForeignKeys
  have hs : l1.map stringifyForeignKey = l2.map stringifyForeignKey := by
    have h1 : ∀ (l : List ForeignKey), l.map stringifyForeignKey =
        (l.map eraseFk).map stringifyForeignKey := by
      intro l
      rw [List.map_map]
      exact (List.map_congr_left (fun a _ => stringifyForeignKey_eraseFk a)).symm
    rw [h1 l1, h1 l2, h]
  rw [hs]

theorem primaryKeysEqual_erase {tf tt : Table}
    (hET : eraseTable tf = eraseTable tt) : primaryKeysEqual tf tt = true := by
  unfold primaryKeysEqual
  have h : tf.primaryKey.map eraseCol = tt.primaryKey.map eraseCol :=
    congrArg Table.primaryKey hET
  simp [stringifyColumnsList_erase h]

theorem uniquesEqual_erase {tf tt : Table}
    (hET : eraseTable tf = eraseTable tt) : uniquesEqual tf tt = true := by
  unfold uniquesEqual
  have h0 : (eraseTable tf).uniques = (eraseTable tt).uniques :=
    congrArg Table.uniques hET
  have h : tf.uniques = tt.uniques := h0
  simp [h]

theorem foreignKeysEqual_erase {tf tt : Table}
    (hET : eraseTable tf = eraseTable tt) : foreignKeysEqual tf tt = true := by
  unfold foreignKeysEqual
  have h : tf.foreignKeys.map eraseFk = tt.foreignKeys.map eraseFk :=
    congrArg Table.foreignKeys hET
  simp [stringifyForeignKeys_erase h]

theorem structuralTrigger_erase_false {tf tt : Table}
    (hET : eraseTable tf = eraseTable tt)
    (hnou : tf.indexes.all (fun i => !(i.unique)) = true)
    (addNames : List String) (hadd : addNames = []) :
    structuralTrigger addNames tf tt = false := by
  unfold structuralTrigger
  rw [primaryKeysEqual_erase hET, uniquesEqual_erase hET,
    foreignKeysEqual_erase hET, hadd]
  have hany : tf.indexes.any (fun i => i.unique) = false := by
    rw [List.any_eq_false]
    intro i hi
    have := (List.all_eq_true.mp hnou) i hi
    simpa using this
  rw [hany]
  rfl

end DrizzleTurso

namespace DrizzleTurso

theorem sharedColumnReasons_erase_nil {tf tt : Table}
    (hET : eraseTable tf = eraseTable tt)
    (hnd : (tf.columns.map Column.name).Nodup) :
    sharedColumnReasons tf tt = [] := by
  unfold sharedColumnReasons
  refine foldl_id _ _ ?_ []
  intro acc c hc
  have hself : tf.getColumn? c.name = some c := getColumn?_self hnd hc
  have htr := getColumn?_erase hET c.name
  rw [hself] at htr
  cases hco : tt.getColumn? c.name with
  | none => rw [hco] at htr
  | some ct =>
    rw [hco] at htr
    have hcc : eraseCol c = eraseCol ct := by simpa using htr
    have h1 : (eraseCol c).type = (eraseCol ct).type := congrArg Column.type hcc
    have htype : c.type = ct.type := h1
    have h2 : (eraseCol c).notNull = (eraseCol ct).notNull :=
      congrArg Column.notNull hcc
    have hnn : c.notNull = ct.notNull := h2
    have h3 : (eraseCol c).defaultValue = (eraseCol ct).defaultValue :=
      congrArg Column.defaultValue hcc
    have hdv : c.defaultValue = ct.defaultValue := h3
    simp only [hco]
    simp [htype, hnn, hdv]

theorem recreateStep_erase_id (dto : Definitions)
    (references : List (String × List String)) {tf tt : Table}
    (hto : dto.getTable? tf.name = some tt)
    (hET : eraseTable tf = eraseTable tt)
    (hnd : (tf.columns.map Column.name).Nodup)
    (hnou : tf.indexes.all (fun i => !(i.unique)) = true)
    (st : RecreateState) :
    recreateStep dto references [] st tf = st := by
  have hst : structuralTrigger [] tf tt = false :=
    structuralTrigger_erase_false hET hnou [] rfl
  have hre : recreateReason [] tf tt = [] := by
    unfold recreateReason
    rw [sharedColumnReasons_erase_nil hET hnd, hst]
    rfl
  unfold recreateStep
  rw [hto]
  simp only [hst, hre]
  rfl

theorem getTablesToRecreate_erase_nil {dfrom dto : Definitions}
    (hE : eraseDefs dfrom = eraseDefs dto)
    (hndf : (dfrom.tables.map Table.name).Nodup)
    (hndt : (dto.tables.map Table.name).Nodup)
    (hcolnd : ∀ t ∈ dfrom.tables, (t.columns.map Column.name).Nodup)
    (hnou : dfrom.tables.all
      (fun t => t.indexes.all (fun i => !(i.unique))) = true) :
    getTablesToRecreate dfrom dto = ⟨[], [], []⟩ := by
  unfold getTablesToRecreate
  rw [addedColumnOwnerNames_erase_nil hE hndt]
  refine foldl_id _ _ ?_ (⟨[], [], []⟩ : RecreateState)
  intro st tf htf
  obtain ⟨tt, hto, hET⟩ := getTable?_to_of_from hE hndf htf
  exact recreateStep_erase_id dto _ hto hET (hcolnd tf htf)
    (by simpa using (List.all_eq_true.mp hnou) tf htf) st

end DrizzleTurso

namespace DrizzleTurso

/-- With no new tables and no drop-references, the foreign-key re-add loop
emits nothing (and cannot fail when every owner resolves). -/
theorem fkAddLoop_nil_of_resolvable (dto : Definitions)
    (l : List (String × ForeignKey))
    (hres : ∀ p ∈ l, dto.hasTable p.1 = true) :
    fkAddLoop dto [] [] l = .ok [] := by
  induction l with
  | nil => rfl
  | cons a as ih =>
    obtain ⟨tn, fk⟩ := a
    have hha : dto.hasTable tn = true := hres (tn, fk) (List.mem_cons_self _ _)
    obtain ⟨t, ht⟩ := Option.isSome_iff_exists.mp hha
    have hcond : fkAddCond dto [] [] tn = .ok false := by
      unfold fkAddCond
      rw [if_neg (by simp)]
      rw [show dto.getTable? tn = some t from ht]
      rfl
    unfold fkAddLoop
    rw [hcond, ih (fun p hp => hres p (List.mem_cons_of_mem _ hp))]
    rfl

theorem mkRemoveFkOps_nil (dfrom : Definitions) :
    mkRemoveFkOps dfrom [] = [] := by
  unfold mkRemoveFkOps
  rw [List.filterMap_eq_nil_iff]
  intro a _
  rw [if_neg (by simp)]

/-- C1 (amended): any successful run on two snapshots that agree on every
compared attribute (equal after erasing `autoIncrement`), with duplicate-free
table and column names, returns the empty summary and zero operations —
provided no `from` table carries a unique index.  A unique index forces
recreation even of identical snapshots (see the counterexample); the
idempotent case is the instance `dfrom := dto`. -/
theorem c1_structural_equality_empty_diff (dfrom dto : Definitions)
    (options : Option DifferencesOptions) (rand : Nat → String)
    (s : PushSummary) (ops : List DiffOp)
    (h : differencesT dfrom dto options rand = .ok (s, ops))
    (hE : eraseDefs dfrom = eraseDefs dto)
    (hndf : (dfrom.tables.map Table.name).Nodup)
    (hndt : (dto.tables.map Table.name).Nodup)
    (hcolnd : ∀ t ∈ dfrom.tables, (t.columns.map Column.name).Nodup)
    (hnou : dfrom.tables.all
      (fun t => t.indexes.all (fun i => !(i.unique))) = true) :
    s = ⟨[], [], [], [], [], []⟩ ∧ ops = [] := by
  have hb := differencesT_ok h
  obtain ⟨bk, recOps, fkOps, hbk, hrec, hfkA, hs, hops⟩ := buildOps_ok hb
  have hTA : getTablesToAdd dfrom dto = [] := getTablesToAdd_erase_nil hE
  have hTD : getTablesToDelete dfrom dto = [] := getTablesToDelete_erase_nil hE
  have hCD : getColumnsToDelete dfrom dto = [] :=
    getColumnsToDelete_erase_nil hE hndt
  have hIR : getIndexesToRemove dfrom dto = [] := getIndexesToRemove_erase_nil hE
  have hIA : getIndexesToAdd dfrom dto = [] := getIndexesToAdd_erase_nil hE
  have hRS : getTablesToRecreate dfrom dto = ⟨[], [], []⟩ :=
    getTablesToRecreate_erase_nil hE hndf hndt hcolnd hnou
  rw [hRS, hCD, hIR, hIA] at hbk
  have hbk2 : (Except.ok (⟨[], [], [], []⟩ : BookkeepingState) :
      Except String BookkeepingState) = .ok bk := hbk
  have hbkv : bk = ⟨[], [], [], []⟩ := by
    rw [Except.ok.injEq] at hbk2
    exact hbk2.symm
  rw [hRS] at hrec
  have hrec2 : (Except.ok ([] : List DiffOp) : Except String (List DiffOp)) =
      .ok recOps := hrec
  have hrecv : recOps = [] := by
    rw [Except.ok.injEq] at hrec2
    exact hrec2.symm
  have hfkv : fkOps = [] := by
    rw [hRS, hTA] at hfkA
    cases hcm : (options.map DifferencesOptions.creationMode).getD false with
    | true =>
      rw [hcm, if_pos rfl, Except.ok.injEq] at hfkA
      exact hfkA.symm
    | false =>
      rw [hcm, if_neg (by simp)] at hfkA
      have hres : ∀ p ∈ allSingleColumnForeignKeys dto, dto.hasTable p.1 = true := by
        intro p hp
        obtain ⟨tn, fk⟩ := p
        obtain ⟨t, ht, htn, _, _⟩ := mem_allSingleColumnForeignKeys.mp hp
        rw [← htn]
        exact hasTable_of_mem ht
      have hloop : fkAddLoop dto [] [] (allSingleColumnForeignKeys dto) =
          .ok [] := fkAddLoop_nil_of_resolvable dto _ hres
      have hfkA2 : (Except.ok ([] : List DiffOp) : Except String (List DiffOp)) =
          .ok fkOps := by
        rw [← hloop]
        exact hfkA.symm.symm ▸ hfkA
      rw [Except.ok.injEq] at hfkA2
      exact hfkA2.symm
  constructor
  · rw [hs, hTA, hTD, hRS, hbkv]
    rfl
  · rw [hops, hbkv, hrecv, hfkv, hTA, hTD, hRS]
    rw [mkRemoveFkOps_nil]
    rfl

end DrizzleTurso

namespace DrizzleTurso

def c1colId : Column := ⟨"id", .integer, true, none, false⟩
def c1colIdAuto : Column := ⟨"id", .integer, true, none, true⟩
def c1uidx : Index := ⟨"idx_users_id", true, ["id"]⟩
def c1u : Definitions := ⟨[⟨"users", [c1colId], [c1colId], [], [], [c1uidx]⟩]⟩
def c1from : Definitions := ⟨[⟨"users", [c1colId], [c1colId], [], [], []⟩]⟩
def c1to : Definitions := ⟨[⟨"users", [c1colIdAuto], [c1colIdAuto], [], [], []⟩]⟩
def c1rand : Nat → String := fun _ => "aaaaaaaaaaaaaaaa"

/-- Counterexample for C1 as stated: `diff(to, to)` on a valid snapshot whose
table carries a unique index succeeds with a non-empty operation list and a
non-empty summary (the unique-index trigger forces recreation even against an
identical snapshot). -/
theorem c1_counterexample :
    differencesT c1u c1u none c1rand =
      .ok (resultSummary (differencesT c1u c1u none c1rand),
        resultOps (differencesT c1u c1u none c1rand)) ∧
    resultOps (differencesT c1u c1u none c1rand) ≠ [] ∧
    (resultSummary (differencesT c1u c1u none c1rand)).recreatedTables ≠ [] := by
  exact ⟨by rfl, by decide, by decide⟩

/-- Witness for C1 (amended): two snapshots equal on every compared
attribute (they differ only in `autoIncrement`), with no unique index,
diff to the empty summary and zero operations. -/
theorem c1_witness :
    resultSummary (differencesT c1from c1to none c1rand) =
      ⟨[], [], [], [], [], []⟩ ∧
    resultOps (differencesT c1from c1to none c1rand) = [] :=
  c1_structural_equality_empty_diff c1from c1to none c1rand
    (resultSummary (differencesT c1from c1to none c1rand))
    (resultOps (differencesT c1from c1to none c1rand))
    (by rfl) (by decide) (by decide) (by decide) (by decide) (by decide)

end DrizzleTurso
